import Mathlib

/-!
A shallow embedding of the opensketch engine core (crates/engine/src):
the scene graph (scene.rs), the component/variant/instance system
(component.rs and the instance part of lib.rs), the snapshot undo engine
(lib.rs), and the flex/grid layout pass (layout.rs).

Modelling conventions:
* Rust `f64` is modelled as `ℚ`.  Every concrete input used in a theorem
  below is exactly representable in binary64 and only undergoes exact
  f64 operations there, so the rational model agrees with the code.
* Rust `HashMap<K, V>` is modelled as an association list; insertion is
  replace-or-append, removal filters the key out.  Iteration order is the
  list order (a deterministic stand-in for the map's arbitrary order).
* The undo/redo stacks hold `serde_json` strings in the code; serde's
  serialization of `SceneData` is injective and round-trips, so the
  stacks are modelled as lists of `SceneData` values compared
  structurally, with the top of the stack at the head.
* Recursive scene walks (`remove_node`, `render_order`,
  `clone_template_children`) terminate in Rust because each step shrinks
  the node map or walks a finite acyclic tree; they are modelled with an
  explicit fuel argument, invoked with enough fuel that the fuel-out
  branch is never reached on the states the theorems speak about.
* String-typed enum parameters of the wasm API (`set_layout_mode`,
  variant keys passed as JSON, override sets passed as JSON) are taken
  in already-parsed form; the claims below quantify over values that
  parse.
-/

namespace OS

/-- types.rs: `Color` (r, g, b are `u8`, alpha is `f64`). -/
structure Color where
  r : Nat
  g : Nat
  b : Nat
  a : ℚ
deriving DecidableEq, Repr

/-- node.rs: `Fill`. -/
structure Fill where
  color : Color
deriving DecidableEq, Repr

/-- node.rs: `Stroke`. -/
structure Stroke where
  color : Color
  width : ℚ
deriving DecidableEq, Repr

/-- node.rs: `LayoutMode`. -/
inductive LayoutMode where
  | None
  | Flex
  | Grid
deriving DecidableEq, Repr

/-- node.rs: `FlexDirection`. -/
inductive FlexDirection where
  | Row
  | Column
deriving DecidableEq, Repr

/-- node.rs: `Align`. -/
inductive Align where
  | Start
  | Center
  | End
  | Stretch
deriving DecidableEq, Repr

/-- node.rs: `Justify`. -/
inductive Justify where
  | Start
  | Center
  | End
  | SpaceBetween
  | SpaceAround
  | SpaceEvenly
deriving DecidableEq, Repr

/-- node.rs: `FlexWrap`. -/
inductive FlexWrap where
  | NoWrap
  | Wrap
deriving DecidableEq, Repr

/-- node.rs: `Layout` (its `Default` derive gives zeroes and the
variant-specific defaults below). -/
structure Layout where
  mode : LayoutMode
  direction : FlexDirection
  align_items : Align
  justify_content : Justify
  gap : ℚ
  padding_top : ℚ
  padding_right : ℚ
  padding_bottom : ℚ
  padding_left : ℚ
  wrap : FlexWrap
  grid_columns : Nat
  grid_rows : Nat
deriving DecidableEq, Repr

/-- node.rs: `Layout::default()`. -/
def Layout.default : Layout :=
  { mode := LayoutMode.None, direction := FlexDirection.Row,
    align_items := Align.Start, justify_content := Justify.Start,
    gap := 0, padding_top := 0, padding_right := 0, padding_bottom := 0,
    padding_left := 0, wrap := FlexWrap.NoWrap, grid_columns := 0,
    grid_rows := 0 }

/-- node.rs: `Note`. -/
structure Note where
  content : String
  tags : List String
  updated_at : Nat
deriving DecidableEq, Repr

/-- component.rs: `VariantValue` (constructors `Boolean` / `String` in
the source, lowercased here so the `String` constructor does not shadow
the string type). -/
inductive VariantValue where
  | boolean (b : Bool)
  | string (s : String)
deriving DecidableEq, Repr

/-- component.rs: `VariantValue::to_display`. -/
def VariantValue.to_display : VariantValue → String
  | VariantValue.boolean b => toString b
  | VariantValue.string s => s

/-- component.rs: `VariantKey = HashMap<String, VariantValue>`, modelled
as an association list (iteration / construction order is the list
order; map equality is permutation up to the distinct keys). -/
def VariantKey : Type := List (String × VariantValue)

instance : DecidableEq VariantKey := by
  unfold VariantKey; infer_instance

instance : Repr VariantKey := by
  unfold VariantKey; infer_instance

/-- component.rs: `NodeOverrides`. -/
structure NodeOverrides where
  text : Option String
  fill_hex : Option String
  visible : Option Bool
deriving DecidableEq, Repr

/-- component.rs: `InstanceData` (payload of `NodeKind::Instance`). -/
structure InstanceData where
  component_id : Nat
  variant_values : VariantKey
  slot_fills : List (String × List Nat)
  overrides : List (Nat × NodeOverrides)
deriving DecidableEq, Repr

/-- node.rs: `NodeKind`. -/
inductive NodeKind where
  | Rect
  | Ellipse
  | Text (content : String) (font_size : ℚ) (font_family : String)
  | Frame
  | Group
  | Slot (slot_name : String)
  | Instance (data : InstanceData)
deriving DecidableEq, Repr

/-- node.rs: `Node`. -/
structure Node where
  id : Nat
  name : String
  kind : NodeKind
  x : ℚ
  y : ℚ
  width : ℚ
  height : ℚ
  rotation : ℚ
  opacity : ℚ
  visible : Bool
  locked : Bool
  fill : Option Fill
  stroke : Option Stroke
  corner_radius : ℚ
  children : List Nat
  parent : Option Nat
  layout : Layout
  notes : List Note
deriving DecidableEq, Repr

/-- node.rs: `Node::new` (the name is Rust's `format!("{:?}", kind)`;
every caller in lib.rs overwrites `name` before the node is observable,
so the stand-in constructor-name string below is never load-bearing). -/
def node_new (id : Nat) (kind : NodeKind) : Node :=
  { id := id,
    name := match kind with
      | NodeKind.Rect => "Rect"
      | NodeKind.Ellipse => "Ellipse"
      | NodeKind.Text _ _ _ => "Text"
      | NodeKind.Frame => "Frame"
      | NodeKind.Group => "Group"
      | NodeKind.Slot _ => "Slot"
      | NodeKind.Instance _ => "Instance",
    kind := kind, x := 0, y := 0, width := 100, height := 100,
    rotation := 0, opacity := 1, visible := true, locked := false,
    fill := some ⟨⟨200, 200, 200, 1⟩⟩, stroke := none,
    corner_radius := 0, children := [], parent := none,
    layout := Layout.default, notes := [] }

/-- scene.rs: `SceneData`, the serialized scene format. -/
structure SceneData where
  nodes : List Node
  root_children : List Nat
  next_id : Nat
deriving DecidableEq, Repr

/-- scene.rs: `Scene`.  The `HashMap<NodeId, Node>` is the `nodes` list
keyed by each node's `id` field. -/
structure Scene where
  nodes : List Node
  root_children : List Nat
  next_id : Nat
  selection : List Nat
deriving DecidableEq, Repr

/-- scene.rs: `Scene::new`. -/
def Scene.new : Scene :=
  { nodes := [], root_children := [], next_id := 1, selection := [] }

/-- scene.rs: `Scene::get_node` (`HashMap::get`). -/
def Scene.get_node (s : Scene) (id : Nat) : Option Node :=
  s.nodes.find? (fun n => n.id == id)

/-- `HashMap::insert` on the node map: replace the entry with this key,
or append a fresh entry. -/
def mapInsert (nodes : List Node) (node : Node) : List Node :=
  if nodes.any (fun m => m.id == node.id) then
    nodes.map (fun m => if m.id == node.id then node else m)
  else
    nodes ++ [node]

/-- `HashMap::get_mut` followed by a field update: rewrite the entry
with this id in place (no entry, no change). -/
def Scene.updateNode (s : Scene) (id : Nat) (f : Node → Node) : Scene :=
  { s with nodes := s.nodes.map (fun n => if n.id == id then f n else n) }

/-- scene.rs: `Scene::add_node`. -/
def Scene.add_node (s : Scene) (node : Node) : Nat × Scene :=
  let id := s.next_id
  let node := { node with id := id }
  let s1 : Scene := { s with next_id := s.next_id + 1 }
  let s2 : Scene :=
    match node.parent with
    | some parent_id =>
        s1.updateNode parent_id (fun p => { p with children := p.children ++ [id] })
    | none => { s1 with root_children := s1.root_children ++ [id] }
  (id, { s2 with nodes := mapInsert s2.nodes node })

/-- scene.rs: one recursion step of `Scene::remove_node`; the fuel
argument makes the recursion structural (in Rust each nested call has
already deleted one map entry, so nesting depth is bounded by the node
count and the fuel-out branch is unreachable from the wrapper below). -/
def Scene.removeNodeF : Nat → Scene → Nat → Scene
  | 0, s, _ => s
  | fuel + 1, s, id =>
    match s.get_node id with
    | none => { s with selection := s.selection.filter (fun c => c != id) }
    | some node =>
      let s1 : Scene := { s with nodes := s.nodes.filter (fun n => n.id != id) }
      let s2 : Scene := { s1 with root_children := s1.root_children.filter (fun c => c != id) }
      let s3 : Scene :=
        match node.parent with
        | some parent_id =>
            s2.updateNode parent_id (fun p => { p with children := p.children.filter (fun c => c != id) })
        | none => s2
      let s4 := node.children.foldl (fun acc c => Scene.removeNodeF fuel acc c) s3
      { s4 with selection := s4.selection.filter (fun c => c != id) }

/-- scene.rs: `Scene::remove_node`. -/
def Scene.remove_node (s : Scene) (id : Nat) : Scene :=
  Scene.removeNodeF (s.nodes.length + 1) s id

/-- scene.rs: `Scene::collect_render_order`, fuelled for the same
reason as `remove_node` (depth is at most the node count on the
acyclic scenes the theorems are about). -/
def Scene.renderOrderF (s : Scene) : Nat → List Nat → List Nat
  | 0, _ => []
  | fuel + 1, ids =>
    ids.foldl (fun acc id =>
      acc ++ [id] ++
        (match s.get_node id with
         | some node => s.renderOrderF fuel node.children
         | none => [])) []

/-- scene.rs: `Scene::render_order`. -/
def Scene.render_order (s : Scene) : List Nat :=
  s.renderOrderF (s.nodes.length + 1) s.root_children

/-- scene.rs: `Scene::all_node_ids`. -/
def Scene.all_node_ids (s : Scene) : List Nat :=
  s.render_order

/-- scene.rs: `Scene::move_node`. -/
def Scene.move_node (s : Scene) (id : Nat) (dx dy : ℚ) : Scene :=
  s.updateNode id (fun n => { n with x := n.x + dx, y := n.y + dy })

/-- scene.rs: `Scene::resize_node` (sizes are floored at 1). -/
def Scene.resize_node (s : Scene) (id : Nat) (width height : ℚ) : Scene :=
  s.updateNode id (fun n => { n with width := max width 1, height := max height 1 })

/-- scene.rs: `Scene::node_count`. -/
def Scene.node_count (s : Scene) : Nat :=
  s.nodes.length

/-- scene.rs: `Scene::export`. -/
def Scene.export (s : Scene) : SceneData :=
  { nodes := s.nodes, root_children := s.root_children, next_id := s.next_id }

/-- scene.rs: `Scene::import` (nodes are inserted one by one into a
fresh map; the selection starts empty). -/
def Scene.import (data : SceneData) : Scene :=
  { nodes := data.nodes.foldl mapInsert [],
    root_children := data.root_children,
    next_id := data.next_id,
    selection := [] }

/-- scene.rs: `Scene::get_children_of`. -/
def Scene.get_children_of (s : Scene) (parent_id : Nat) : List Nat :=
  match s.get_node parent_id with
  | some node => node.children
  | none => []

/-- Generic `HashMap::insert` for the association lists standing in for
the auxiliary maps (variant maps, override maps, slot-fill maps):
replace the entry with this key or append a fresh one. -/
def alistInsert {α β : Type} [BEq α] (l : List (α × β)) (k : α) (v : β) : List (α × β) :=
  if l.any (fun p => p.1 == k) then
    l.map (fun p => if p.1 == k then (k, v) else p)
  else
    l ++ [(k, v)]

/-- component.rs: `variant_key_to_string`: render every entry as
`name=value`, sort, join with commas.  Rust's `Vec::sort` on `String`
is byte-lexicographic, which on UTF-8 agrees with the codepoint
lexicographic order used by Lean's `String` linear order. -/
def variant_key_to_string (key : VariantKey) : String :=
  let parts := key.map (fun kv => kv.1 ++ "=" ++ kv.2.to_display)
  String.intercalate "," (parts.insertionSort (fun a b => a ≤ b))

/-- component.rs: `VariantProp` would carry the property metadata; the
claims only need its name and default value. -/
structure VariantProp where
  name : String
  is_boolean : Bool
  options : List String
  default_value : VariantValue
deriving DecidableEq, Repr

/-- component.rs: `SlotDef`. -/
structure SlotDef where
  name : String
  placeholder_node_id : Nat
  default_children : List Nat
deriving DecidableEq, Repr

/-- component.rs: `VariantData`. -/
structure VariantData where
  key : VariantKey
  root_node_id : Nat
  nodes : List Node
deriving DecidableEq, Repr

/-- component.rs: `Component`; `variants` is the `HashMap<String,
VariantData>` keyed by canonical variant-key strings. -/
structure Component where
  id : Nat
  name : String
  description : String
  properties : List VariantProp
  slots : List SlotDef
  variants : List (String × VariantData)
  default_variant_key : String
deriving DecidableEq, Repr

/-- component.rs: `Component::new`. -/
def Component.new (id : Nat) (name : String) : Component :=
  { id := id, name := name, description := "", properties := [],
    slots := [], variants := [], default_variant_key := "" }

/-- component.rs: `Component::default_key`. -/
def Component.default_key (c : Component) : VariantKey :=
  c.properties.map (fun p => (p.name, p.default_value))

/-- component.rs: `Component::get_variant`: exact lookup of the
canonicalized key, `or_else` a lookup of the stored default key. -/
def Component.get_variant (c : Component) (key : VariantKey) : Option VariantData :=
  let key_str := variant_key_to_string key
  match c.variants.find? (fun p => p.1 == key_str) with
  | some p => some p.2
  | none =>
    match c.variants.find? (fun p => p.1 == c.default_variant_key) with
    | some p => some p.2
    | none => none

/-- component.rs: `Component::set_variant` (the first variant inserted
into an empty component becomes the default). -/
def Component.set_variant (c : Component) (key : VariantKey) (data : VariantData) : Component :=
  let key_str := variant_key_to_string key
  let c := if c.variants.isEmpty then { c with default_variant_key := key_str } else c
  { c with variants := alistInsert c.variants key_str data }

/-- component.rs: `ComponentStore` (`components` is the id-keyed map). -/
structure ComponentStore where
  components : List Component
  next_id : Nat
deriving DecidableEq, Repr

/-- component.rs: `ComponentStore::new`. -/
def ComponentStore.new : ComponentStore :=
  { components := [], next_id := 1 }

/-- component.rs: `ComponentStore::create`. -/
def ComponentStore.create (cs : ComponentStore) (name : String) : Nat × ComponentStore :=
  let id := cs.next_id
  (id, { components := cs.components ++ [Component.new id name], next_id := cs.next_id + 1 })

/-- component.rs: `ComponentStore::get`. -/
def ComponentStore.get (cs : ComponentStore) (id : Nat) : Option Component :=
  cs.components.find? (fun c => c.id == id)

/-- `ComponentStore::get_mut` followed by an update. -/
def ComponentStore.updateComponent (cs : ComponentStore) (id : Nat) (f : Component → Component) : ComponentStore :=
  { cs with components := cs.components.map (fun c => if c.id == id then f c else c) }

/-- scene.rs: `Scene::reparent`. -/
def Scene.reparent (s : Scene) (node_id : Nat) (new_parent : Option Nat) : Scene :=
  let s1 : Scene :=
    match s.get_node node_id with
    | some node =>
      match node.parent with
      | some old_parent =>
          s.updateNode old_parent (fun p => { p with children := p.children.filter (fun c => c != node_id) })
      | none => { s with root_children := s.root_children.filter (fun c => c != node_id) }
    | none => s
  match new_parent with
  | some pid =>
    let s2 := s1.updateNode pid (fun p => { p with children := p.children ++ [node_id] })
    s2.updateNode node_id (fun n => { n with parent := some pid })
  | none =>
    let s2 : Scene := { s1 with root_children := s1.root_children ++ [node_id] }
    s2.updateNode node_id (fun n => { n with parent := none })

/-- lib.rs: the engine-wide state (the renderer and `editing_node` are
excluded rendering collaborators; the undo/redo stacks hold scene
snapshots, top of stack first). -/
structure Engine where
  scene : Scene
  components : ComponentStore
  undo_stack : List SceneData
  redo_stack : List SceneData
deriving DecidableEq, Repr

/-- lib.rs: `Engine::new` (fresh scene, component store and stacks). -/
def Engine.new : Engine :=
  { scene := Scene.new, components := ComponentStore.new,
    undo_stack := [], redo_stack := [] }

/-- lib.rs: `Engine::push_undo`: snapshot the scene, skip if identical
to the top entry, cap at 100 entries by evicting the oldest (the list
tail end), clear the redo stack. -/
def Engine.push_undo (e : Engine) : Engine :=
  let snapshot := e.scene.export
  if e.undo_stack.head? = some snapshot then e
  else
    let u := snapshot :: e.undo_stack
    let u := if u.length > 100 then u.dropLast else u
    { e with undo_stack := u, redo_stack := [] }

/-- lib.rs: `Engine::undo`. -/
def Engine.undo (e : Engine) : Bool × Engine :=
  match e.undo_stack with
  | [] => (false, e)
  | prev :: rest =>
    let saved_selection := e.scene.selection
    let current := e.scene.export
    let s := Scene.import prev
    let s : Scene := { s with selection := saved_selection.filter (fun id => (s.get_node id).isSome) }
    (true, { e with scene := s, undo_stack := rest, redo_stack := current :: e.redo_stack })

/-- lib.rs: `Engine::redo`. -/
def Engine.redo (e : Engine) : Bool × Engine :=
  match e.redo_stack with
  | [] => (false, e)
  | next :: rest =>
    let saved_selection := e.scene.selection
    let current := e.scene.export
    let s := Scene.import next
    let s : Scene := { s with selection := saved_selection.filter (fun id => (s.get_node id).isSome) }
    (true, { e with scene := s, undo_stack := current :: e.undo_stack, redo_stack := rest })

/-- lib.rs: `Engine::can_undo`. -/
def Engine.can_undo (e : Engine) : Bool :=
  !e.undo_stack.isEmpty

/-- lib.rs: `Engine::can_redo`. -/
def Engine.can_redo (e : Engine) : Bool :=
  !e.redo_stack.isEmpty

/-- lib.rs: `Engine::add_rect`. -/
def Engine.add_rect (e : Engine) (x y w h : ℚ) : Nat × Engine :=
  let node := node_new 0 NodeKind.Rect
  let node := { node with x := x, y := y, width := w, height := h,
                          name := "Rect " ++ toString (e.scene.node_count + 1) }
  let (id, s) := e.scene.add_node node
  (id, { e with scene := s })

/-- lib.rs: `Engine::add_ellipse`. -/
def Engine.add_ellipse (e : Engine) (x y w h : ℚ) : Nat × Engine :=
  let node := node_new 0 NodeKind.Ellipse
  let node := { node with x := x, y := y, width := w, height := h,
                          name := "Ellipse " ++ toString (e.scene.node_count + 1) }
  let (id, s) := e.scene.add_node node
  (id, { e with scene := s })

/-- lib.rs: `Engine::add_text` (width is `len * font_size * 0.6`,
height `font_size * 1.2`; 0.6 and 1.2 are the rationals 3/5 and 6/5). -/
def Engine.add_text (e : Engine) (x y : ℚ) (content : String) (font_size : ℚ) : Nat × Engine :=
  let node := node_new 0 (NodeKind.Text content font_size "Inter")
  let node := { node with x := x, y := y,
                          width := (content.length : ℚ) * font_size * (3 / 5),
                          height := font_size * (6 / 5),
                          name := "Text " ++ toString (e.scene.node_count + 1),
                          fill := some ⟨⟨0, 0, 0, 1⟩⟩ }
  let (id, s) := e.scene.add_node node
  (id, { e with scene := s })

/-- lib.rs: `Engine::add_frame`. -/
def Engine.add_frame (e : Engine) (x y w h : ℚ) : Nat × Engine :=
  let node := node_new 0 NodeKind.Frame
  let node := { node with x := x, y := y, width := w, height := h,
                          name := "Frame " ++ toString (e.scene.node_count + 1),
                          fill := some ⟨⟨255, 255, 255, 1⟩⟩ }
  let (id, s) := e.scene.add_node node
  (id, { e with scene := s })

/-- lib.rs: `Engine::remove_node`. -/
def Engine.remove_node (e : Engine) (id : Nat) : Engine :=
  { e with scene := e.scene.remove_node id }

/-- lib.rs: `Engine::move_node`. -/
def Engine.move_node (e : Engine) (id : Nat) (dx dy : ℚ) : Engine :=
  { e with scene := e.scene.move_node id dx dy }

/-- lib.rs: `Engine::resize_node`. -/
def Engine.resize_node (e : Engine) (id : Nat) (w h : ℚ) : Engine :=
  { e with scene := e.scene.resize_node id w h }

/-- lib.rs: `Engine::set_node_position`. -/
def Engine.set_node_position (e : Engine) (id : Nat) (x y : ℚ) : Engine :=
  { e with scene := e.scene.updateNode id (fun n => { n with x := x, y := y }) }

/-- lib.rs: `Engine::set_fill_color`. -/
def Engine.set_fill_color (e : Engine) (id : Nat) (r g b : Nat) (a : ℚ) : Engine :=
  { e with scene := e.scene.updateNode id (fun n => { n with fill := some ⟨⟨r, g, b, a⟩⟩ }) }

/-- lib.rs: `Engine::set_stroke`. -/
def Engine.set_stroke (e : Engine) (id : Nat) (r g b : Nat) (a w : ℚ) : Engine :=
  { e with scene := e.scene.updateNode id (fun n => { n with stroke := some ⟨⟨r, g, b, a⟩, w⟩ }) }

/-- lib.rs: `Engine::set_corner_radius`. -/
def Engine.set_corner_radius (e : Engine) (id : Nat) (radius : ℚ) : Engine :=
  { e with scene := e.scene.updateNode id (fun n => { n with corner_radius := radius }) }

/-- lib.rs: `Engine::set_opacity` (clamped to [0, 1]). -/
def Engine.set_opacity (e : Engine) (id : Nat) (opacity : ℚ) : Engine :=
  { e with scene := e.scene.updateNode id (fun n => { n with opacity := min (max opacity 0) 1 }) }

/-- lib.rs: `Engine::set_node_name`. -/
def Engine.set_node_name (e : Engine) (id : Nat) (name : String) : Engine :=
  { e with scene := e.scene.updateNode id (fun n => { n with name := name }) }

/-- lib.rs: `Engine::set_text_content` (text nodes also refit their
width from the new length). -/
def Engine.set_text_content (e : Engine) (id : Nat) (content : String) : Engine :=
  { e with scene := e.scene.updateNode id (fun n =>
      match n.kind with
      | NodeKind.Text _ font_size font_family =>
        { n with kind := NodeKind.Text content font_size font_family,
                 width := (content.length : ℚ) * font_size * (3 / 5) }
      | _ => n) }

/-- lib.rs: `Engine::set_font_size`. -/
def Engine.set_font_size (e : Engine) (id : Nat) (size : ℚ) : Engine :=
  { e with scene := e.scene.updateNode id (fun n =>
      match n.kind with
      | NodeKind.Text content _ font_family =>
        { n with kind := NodeKind.Text content size font_family,
                 width := (content.length : ℚ) * size * (3 / 5),
                 height := size * (6 / 5) }
      | _ => n) }

/-- lib.rs: `Engine::set_font_family`. -/
def Engine.set_font_family (e : Engine) (id : Nat) (family : String) : Engine :=
  { e with scene := e.scene.updateNode id (fun n =>
      match n.kind with
      | NodeKind.Text content font_size _ =>
        { n with kind := NodeKind.Text content font_size family }
      | _ => n) }

/-- lib.rs: `Engine::set_visible`. -/
def Engine.set_visible (e : Engine) (id : Nat) (visible : Bool) : Engine :=
  { e with scene := e.scene.updateNode id (fun n => { n with visible := visible }) }

/-- lib.rs: `Engine::set_locked`. -/
def Engine.set_locked (e : Engine) (id : Nat) (locked : Bool) : Engine :=
  { e with scene := e.scene.updateNode id (fun n => { n with locked := locked }) }

/-- lib.rs: `Engine::select`. -/
def Engine.select (e : Engine) (id : Nat) : Engine :=
  { e with scene := { e.scene with selection := [id] } }

/-- lib.rs: `Engine::add_to_selection`. -/
def Engine.add_to_selection (e : Engine) (id : Nat) : Engine :=
  if e.scene.selection.contains id then e
  else { e with scene := { e.scene with selection := e.scene.selection ++ [id] } }

/-- lib.rs: `Engine::deselect_all`. -/
def Engine.deselect_all (e : Engine) : Engine :=
  { e with scene := { e.scene with selection := [] } }

/-- lib.rs: `Engine::reparent_node`. -/
def Engine.reparent_node (e : Engine) (node_id : Nat) (new_parent : Option Nat) : Engine :=
  { e with scene := e.scene.reparent node_id new_parent }

/-- lib.rs: `Engine::duplicate_node` (shallow copy: offset by
(+20, +20), children emptied, inserted under the same parent). -/
def Engine.duplicate_node (e : Engine) (id : Nat) : Nat × Engine :=
  match e.scene.get_node id with
  | some node =>
    let new_node := { node with x := node.x + 20, y := node.y + 20,
                                parent := node.parent, children := [] }
    let (nid, s) := e.scene.add_node new_node
    (nid, { e with scene := s })
  | none => (0, e)

/-- lib.rs: `Engine::set_layout_mode` (taking the parsed mode). -/
def Engine.set_layout_mode (e : Engine) (id : Nat) (mode : LayoutMode) : Engine :=
  { e with scene := e.scene.updateNode id (fun n => { n with layout := { n.layout with mode := mode } }) }

/-- lib.rs: `Engine::set_flex_direction` (taking the parsed direction). -/
def Engine.set_flex_direction (e : Engine) (id : Nat) (dir : FlexDirection) : Engine :=
  { e with scene := e.scene.updateNode id (fun n => { n with layout := { n.layout with direction := dir } }) }

/-- lib.rs: `Engine::set_align_items` (taking the parsed alignment). -/
def Engine.set_align_items (e : Engine) (id : Nat) (align : Align) : Engine :=
  { e with scene := e.scene.updateNode id (fun n => { n with layout := { n.layout with align_items := align } }) }

/-- lib.rs: `Engine::set_justify_content` (taking the parsed value). -/
def Engine.set_justify_content (e : Engine) (id : Nat) (justify : Justify) : Engine :=
  { e with scene := e.scene.updateNode id (fun n => { n with layout := { n.layout with justify_content := justify } }) }

/-- lib.rs: `Engine::set_layout_gap`. -/
def Engine.set_layout_gap (e : Engine) (id : Nat) (gap : ℚ) : Engine :=
  { e with scene := e.scene.updateNode id (fun n => { n with layout := { n.layout with gap := gap } }) }

/-- lib.rs: `Engine::set_layout_padding`. -/
def Engine.set_layout_padding (e : Engine) (id : Nat) (top right bottom left : ℚ) : Engine :=
  { e with scene := e.scene.updateNode id (fun n =>
      { n with layout := { n.layout with padding_top := top, padding_right := right,
                                         padding_bottom := bottom, padding_left := left } }) }

/-- lib.rs: `Engine::set_grid_columns`. -/
def Engine.set_grid_columns (e : Engine) (id : Nat) (cols : Nat) : Engine :=
  { e with scene := e.scene.updateNode id (fun n => { n with layout := { n.layout with grid_columns := cols } }) }

/-- lib.rs: `Engine::set_flex_wrap` (taking the parsed value). -/
def Engine.set_flex_wrap (e : Engine) (id : Nat) (wrap : FlexWrap) : Engine :=
  { e with scene := e.scene.updateNode id (fun n => { n with layout := { n.layout with wrap := wrap } }) }

/-- lib.rs: `Engine::clone_template_children`: deep-clone the template
children of `template_parent` under `scene_parent`, remapping ids by
insertion and offsetting positions unless the destination parent has an
active layout mode.  Fuelled: the Rust recursion terminates because a
well-formed template's child graph is a finite tree whose depth is at
most the template node count. -/
def Engine.cloneTemplateChildrenF : Nat → Scene → Node → List Node → Nat → ℚ → ℚ → Scene
  | 0, s, _, _, _, _, _ => s
  | fuel + 1, s, template_parent, all_nodes, scene_parent, dx, dy =>
    template_parent.children.foldl (fun sc child_id =>
      match all_nodes.find? (fun n => n.id == child_id) with
      | none => sc
      | some template_child =>
        let parent_has_layout :=
          match sc.get_node scene_parent with
          | some p => decide (p.layout.mode ≠ LayoutMode.None)
          | none => false
        let new_node :=
          if parent_has_layout then
            { template_child with parent := some scene_parent, children := [] }
          else
            { template_child with x := template_child.x + dx, y := template_child.y + dy,
                                  parent := some scene_parent, children := [] }
        let (new_id, sc2) := sc.add_node new_node
        Engine.cloneTemplateChildrenF fuel sc2 template_child all_nodes new_id dx dy) s

/-- lib.rs: `Engine::set_instance_variant`, taking the parsed variant
key (a key string that fails to parse makes the Rust function return
false with no other effect). -/
def Engine.set_instance_variant (e : Engine) (instance_id : Nat) (key : VariantKey) : Bool × Engine :=
  match e.scene.get_node instance_id with
  | none => (false, e)
  | some node =>
    match node.kind with
    | NodeKind.Instance idata =>
      match e.components.get idata.component_id with
      | none => (false, e)
      | some comp =>
        match comp.get_variant key with
        | none => (false, e)
        | some variant =>
          let s1 :=
            match e.scene.get_node instance_id with
            | some n2 => n2.children.foldl (fun (sc : Scene) cid => sc.remove_node cid) e.scene
            | none => e.scene
          match s1.get_node instance_id with
          | none => (false, { e with scene := s1 })
          | some n3 =>
            let s2 := s1.updateNode instance_id (fun n =>
              let n :=
                match n.kind with
                | NodeKind.Instance d =>
                  { n with kind := NodeKind.Instance { d with variant_values := key } }
                | _ => n
              match variant.nodes.head? with
              | some template_root =>
                { n with width := template_root.width, height := template_root.height,
                         fill := template_root.fill, stroke := template_root.stroke,
                         corner_radius := template_root.corner_radius,
                         layout := template_root.layout }
              | none => n)
            let s3 :=
              match variant.nodes.head? with
              | some template_root =>
                Engine.cloneTemplateChildrenF (variant.nodes.length + 1) s2 template_root
                  variant.nodes instance_id (n3.x - template_root.x) (n3.y - template_root.y)
              | none => s2
            (true, { e with scene := s3 })
    | _ => (false, e)

/-- lib.rs: `Engine::set_instance_override`, taking the parsed override
set (malformed JSON makes the Rust function return false with no other
effect): the text override is applied to Text targets, the visibility
override to any target, the set is recorded in the instance's override
map, and the function returns true unconditionally. -/
def Engine.set_instance_override (e : Engine) (instance_id target_node_id : Nat)
    (ov : NodeOverrides) : Bool × Engine :=
  let s :=
    match ov.text with
    | some t => e.scene.updateNode target_node_id (fun n =>
        match n.kind with
        | NodeKind.Text _ font_size font_family =>
          { n with kind := NodeKind.Text t font_size font_family }
        | _ => n)
    | none => e.scene
  let s :=
    match ov.visible with
    | some v => s.updateNode target_node_id (fun n => { n with visible := v })
    | none => s
  let s := s.updateNode instance_id (fun n =>
    match n.kind with
    | NodeKind.Instance d =>
      { n with kind := NodeKind.Instance { d with overrides := alistInsert d.overrides target_node_id ov } }
    | _ => n)
  (true, { e with scene := s })

/-- layout.rs: the per-child placement loop of `compute_flex`: place
each visible child at the running main-axis cursor, advance by the
child's main size plus the active gap (no gap after the last child);
`Stretch` also forces the child's cross-axis size to the available
cross size. -/
def flexLoop (is_row : Bool) (content_x content_y avail_cross : ℚ) (align : Align)
    (use_gap : ℚ) : Scene → List (Nat × ℚ × ℚ) → ℚ → Scene
  | s, [], _ => s
  | s, (cid, cw, ch) :: rest, main_pos =>
    let child_main := if is_row then cw else ch
    let child_cross := if is_row then ch else cw
    let cross_pos :=
      match align with
      | Align.Start => 0
      | Align.Center => (avail_cross - child_cross) / 2
      | Align.End => avail_cross - child_cross
      | Align.Stretch => 0
    let new_x := if is_row then content_x + main_pos else content_x + cross_pos
    let new_y := if is_row then content_y + cross_pos else content_y + main_pos
    let s1 := s.updateNode cid (fun child =>
      let child := { child with x := new_x, y := new_y }
      if align == Align.Stretch then
        if is_row then { child with height := avail_cross }
        else { child with width := avail_cross }
      else child)
    flexLoop is_row content_x content_y avail_cross align use_gap s1 rest
      (main_pos + child_main + (if rest.isEmpty then 0 else use_gap))

/-- layout.rs: the `child_sizes` collection of `compute_flex`: the
(id, width, height) of every visible child, in child-list order;
invisible or missing children are excluded entirely. -/
def visibleSizes (s : Scene) (children : List Nat) : List (Nat × ℚ × ℚ) :=
  children.filterMap (fun cid =>
    match s.get_node cid with
    | some child => if child.visible then some (cid, child.width, child.height) else none
    | none => none)

/-- layout.rs: `compute_flex`. -/
def compute_flex (s : Scene) (layout : Layout) (px py pw ph : ℚ) (children : List Nat) : Scene :=
  let content_x := px + layout.padding_left
  let content_y := py + layout.padding_top
  let content_w := pw - layout.padding_left - layout.padding_right
  let content_h := ph - layout.padding_top - layout.padding_bottom
  let is_row := layout.direction == FlexDirection.Row
  let gap := layout.gap
  let child_sizes : List (Nat × ℚ × ℚ) := visibleSizes s children
  if child_sizes.isEmpty then s
  else
    let n : ℚ := child_sizes.length
    let total_child : ℚ :=
      if is_row then (child_sizes.map (fun c => c.2.1)).sum
      else (child_sizes.map (fun c => c.2.2)).sum
    let total_main : ℚ := total_child + gap * (n - 1)
    let avail_main := if is_row then content_w else content_h
    let avail_cross := if is_row then content_h else content_w
    let start_pos : ℚ :=
      match layout.justify_content with
      | Justify.Start => 0
      | Justify.Center => (avail_main - total_main) / 2
      | Justify.End => avail_main - total_main
      | Justify.SpaceBetween => 0
      | Justify.SpaceAround => 0
      | Justify.SpaceEvenly => 0
    let dist : ℚ × ℚ :=
      match layout.justify_content with
      | Justify.SpaceBetween =>
        if 1 < n then (start_pos, (avail_main - total_child) / (n - 1)) else (start_pos, gap)
      | Justify.SpaceAround =>
        let space := (avail_main - total_child) / n
        (space / 2, space)
      | Justify.SpaceEvenly =>
        let space := (avail_main - total_child) / (n + 1)
        (space, space)
      | _ => (start_pos, gap)
    let use_gap : ℚ :=
      match layout.justify_content with
      | Justify.SpaceBetween => dist.2
      | Justify.SpaceAround => dist.2
      | Justify.SpaceEvenly => dist.2
      | _ => gap
    flexLoop is_row content_x content_y avail_cross layout.align_items use_gap s child_sizes dist.1

/-- layout.rs: `compute_grid`. -/
def compute_grid (s : Scene) (layout : Layout) (px py pw _ph : ℚ) (children : List Nat) : Scene :=
  let content_x := px + layout.padding_left
  let content_y := py + layout.padding_top
  let content_w := pw - layout.padding_left - layout.padding_right
  let cols := max layout.grid_columns 1
  let gap := layout.gap
  let col_w := (content_w - gap * ((cols : ℚ) - 1)) / (cols : ℚ)
  let visible_children : List (Nat × ℚ) := children.filterMap (fun cid =>
    match s.get_node cid with
    | some child => if child.visible then some (cid, child.height) else none
    | none => none)
  (List.range visible_children.length).foldl (fun (sc : Scene) i =>
    match visible_children.get? i with
    | none => sc
    | some (cid, _) =>
      let col := i % cols
      let row := i / cols
      let row_y : ℚ := ((List.range row).map (fun r =>
        (((visible_children.drop (r * cols)).take cols).map (fun p => p.2)).foldl max 0 + gap)).sum
      let x := content_x + (col : ℚ) * (col_w + gap)
      let y := content_y + row_y
      sc.updateNode cid (fun child => { child with x := x, y := y, width := col_w })) s

/-- layout.rs: `compute_node_layout`. -/
def compute_node_layout (s : Scene) (parent_id : Nat) : Scene :=
  match s.get_node parent_id with
  | none => s
  | some node =>
    if node.children.isEmpty then s
    else
      match node.layout.mode with
      | LayoutMode.Flex => compute_flex s node.layout node.x node.y node.width node.height node.children
      | LayoutMode.Grid => compute_grid s node.layout node.x node.y node.width node.height node.children
      | LayoutMode.None => s

/-- layout.rs: `compute_layouts`: run layout once for every node whose
layout mode is not `None` (selected against the pre-pass scene, in
render order). -/
def compute_layouts (s : Scene) : Scene :=
  let ids := s.all_node_ids.filter (fun id =>
    match s.get_node id with
    | some n => decide (n.layout.mode ≠ LayoutMode.None)
    | none => false)
  ids.foldl compute_node_layout s

/-- lib.rs, §6 of the spec: the scene-mutating operations of the public
engine API (each constructor is one wasm-exposed method; the
string-typed enum parameters are taken parsed). -/
inductive Mutation where
  | add_rect (x y w h : ℚ)
  | add_ellipse (x y w h : ℚ)
  | add_text (x y : ℚ) (content : String) (font_size : ℚ)
  | add_frame (x y w h : ℚ)
  | remove_node (id : Nat)
  | move_node (id : Nat) (dx dy : ℚ)
  | resize_node (id : Nat) (w h : ℚ)
  | set_node_position (id : Nat) (x y : ℚ)
  | set_fill_color (id r g b : Nat) (a : ℚ)
  | set_stroke (id r g b : Nat) (a w : ℚ)
  | set_corner_radius (id : Nat) (radius : ℚ)
  | set_opacity (id : Nat) (o : ℚ)
  | set_node_name (id : Nat) (name : String)
  | set_text_content (id : Nat) (content : String)
  | set_font_size (id : Nat) (size : ℚ)
  | set_font_family (id : Nat) (family : String)
  | set_visible (id : Nat) (v : Bool)
  | set_locked (id : Nat) (v : Bool)
  | select (id : Nat)
  | add_to_selection (id : Nat)
  | deselect_all
  | reparent_node (id : Nat) (new_parent : Option Nat)
  | duplicate_node (id : Nat)
  | set_layout_mode (id : Nat) (mode : LayoutMode)
  | set_flex_direction (id : Nat) (dir : FlexDirection)
  | set_align_items (id : Nat) (a : Align)
  | set_justify_content (id : Nat) (j : Justify)
  | set_layout_gap (id : Nat) (g : ℚ)
  | set_layout_padding (id : Nat) (t r b l : ℚ)
  | set_grid_columns (id : Nat) (c : Nat)
  | set_flex_wrap (id : Nat) (w : FlexWrap)
deriving DecidableEq, Repr

/-- Dispatch a `Mutation` to the corresponding lib.rs engine method
(returned ids of the `add_*`/`duplicate` methods are dropped). -/
def Mutation.apply : Mutation → Engine → Engine
  | Mutation.add_rect x y w h, e => (e.add_rect x y w h).2
  | Mutation.add_ellipse x y w h, e => (e.add_ellipse x y w h).2
  | Mutation.add_text x y c fs, e => (e.add_text x y c fs).2
  | Mutation.add_frame x y w h, e => (e.add_frame x y w h).2
  | Mutation.remove_node id, e => e.remove_node id
  | Mutation.move_node id dx dy, e => e.move_node id dx dy
  | Mutation.resize_node id w h, e => e.resize_node id w h
  | Mutation.set_node_position id x y, e => e.set_node_position id x y
  | Mutation.set_fill_color id r g b a, e => e.set_fill_color id r g b a
  | Mutation.set_stroke id r g b a w, e => e.set_stroke id r g b a w
  | Mutation.set_corner_radius id radius, e => e.set_corner_radius id radius
  | Mutation.set_opacity id o, e => e.set_opacity id o
  | Mutation.set_node_name id name, e => e.set_node_name id name
  | Mutation.set_text_content id c, e => e.set_text_content id c
  | Mutation.set_font_size id sz, e => e.set_font_size id sz
  | Mutation.set_font_family id f, e => e.set_font_family id f
  | Mutation.set_visible id v, e => e.set_visible id v
  | Mutation.set_locked id v, e => e.set_locked id v
  | Mutation.select id, e => e.select id
  | Mutation.add_to_selection id, e => e.add_to_selection id
  | Mutation.deselect_all, e => e.deselect_all
  | Mutation.reparent_node id p, e => e.reparent_node id p
  | Mutation.duplicate_node id, e => (e.duplicate_node id).2
  | Mutation.set_layout_mode id m, e => e.set_layout_mode id m
  | Mutation.set_flex_direction id d, e => e.set_flex_direction id d
  | Mutation.set_align_items id a, e => e.set_align_items id a
  | Mutation.set_justify_content id j, e => e.set_justify_content id j
  | Mutation.set_layout_gap id g, e => e.set_layout_gap id g
  | Mutation.set_layout_padding id t r b l, e => e.set_layout_padding id t r b l
  | Mutation.set_grid_columns id c, e => e.set_grid_columns id c
  | Mutation.set_flex_wrap id w, e => e.set_flex_wrap id w

/-- A sequence of scene mutations applied in order. -/
def applyMuts (ms : List Mutation) (e : Engine) : Engine :=
  ms.foldl (fun acc m => m.apply acc) e

/-- Sequential checkpointing: bring the engine's scene to each state in
turn and call `push_undo` (lib.rs prescribes a `push_undo` before every
mutation, so a run of mutations produces exactly this stack traffic). -/
def checkpoints (e : Engine) (ss : List Scene) : Engine :=
  ss.foldl (fun acc s => Engine.push_undo { acc with scene := s }) e

/-!  Well-formedness of the engine's node map, and concrete fixtures
used by the theorems. -/

/-- The node-map invariants every scene reachable through the engine
API maintains: stored ids are pairwise distinct and strictly below the
id counter (ids are assigned monotonically and never reused). -/
def SceneWF0 (s : Scene) : Prop :=
  (s.nodes.map Node.id).Nodup ∧ ∀ m ∈ s.nodes, m.id < s.next_id

instance : DecidablePred SceneWF0 := fun s => by
  unfold SceneWF0; infer_instance

/-- A bare rectangle node (neutral attribute values); `Scene.add_node`
assigns the real id and the containing list. -/
def demoRect : Node :=
  { id := 0, name := "rect", kind := NodeKind.Rect, x := 0, y := 0, width := 10,
    height := 10, rotation := 0, opacity := 1, visible := true, locked := false,
    fill := none, stroke := none, corner_radius := 0, children := [],
    parent := none, layout := Layout.default, notes := [] }

/-- A rectangle with chosen geometry and parent. -/
def demoRectAt (x y w h : ℚ) (parent : Option Nat) : Node :=
  { demoRect with x := x, y := y, width := w, height := h, parent := parent }

/-- One root rectangle added to the empty scene (it receives id 1). -/
def singleRectScene : Scene :=
  (Scene.new.add_node demoRect).2

/-- `singleRectScene` after `reparent(1, Some(1))`: the node is made
its own parent. -/
def selfLoopScene : Scene :=
  singleRectScene.reparent 1 (some 1)

/-- Flex layout configuration of the space-between fixture: row
direction, justify space-between, and a configured gap of 7 that the
claim says is irrelevant. -/
def flexFixtureLayout : Layout :=
  { Layout.default with mode := LayoutMode.Flex, direction := FlexDirection.Row,
                        justify_content := Justify.SpaceBetween, gap := 7 }

/-- Flex fixture: a 300-wide frame (no padding, so content width 300)
with three visible 50-wide children, ids 2, 3, 4. -/
def flexFixtureScene : Scene :=
  let f := { demoRectAt 0 0 300 100 none with kind := NodeKind.Frame, layout := flexFixtureLayout }
  let s := (Scene.new.add_node f).2
  let s := (s.add_node (demoRectAt 5 5 50 30 (some 1))).2
  let s := (s.add_node (demoRectAt 6 6 50 40 (some 1))).2
  (s.add_node (demoRectAt 7 7 50 50 (some 1))).2

/-- Grid layout configuration of the grid fixture: 2 columns, gap 10. -/
def gridFixtureLayout : Layout :=
  { Layout.default with mode := LayoutMode.Grid, grid_columns := 2, gap := 10 }

/-- Grid fixture: a 220-wide frame (no padding, so content width 220)
at the origin with one invisible child (id 2) followed by three visible
children of heights 20, 30, 15 (ids 3, 4, 5); the invisible child
checks that grid indexing counts visible children only. -/
def gridFixtureScene : Scene :=
  let f := { demoRectAt 0 0 220 200 none with kind := NodeKind.Frame, layout := gridFixtureLayout }
  let s := (Scene.new.add_node f).2
  let s := (s.add_node { demoRectAt 1 1 40 33 (some 1) with visible := false }).2
  let s := (s.add_node (demoRectAt 2 2 40 20 (some 1))).2
  let s := (s.add_node (demoRectAt 3 3 40 30 (some 1))).2
  (s.add_node (demoRectAt 4 4 40 15 (some 1))).2

/-- A one-node component template (root node id 10 in template space,
size 77 × 88, no children). -/
def cardTemplateRoot : Node :=
  { demoRect with id := 10, width := 77, height := 88 }

/-- The variant data of `cardComponent`'s default variant. -/
def cardVariantData : VariantData :=
  { key := [], root_node_id := 10, nodes := [cardTemplateRoot] }

/-- A component whose only registered variant is the default key `""`
(exactly the state `create_component` leaves behind). -/
def cardComponent : Component :=
  { Component.new 1 "Card" with variants := [("", cardVariantData)] }

/-- A component with declared properties but zero registered variants. -/
def emptyComponent : Component :=
  Component.new 1 "Empty"

/-- Fresh instance metadata for a component. -/
def freshInstanceData (component_id : Nat) : InstanceData :=
  { component_id := component_id, variant_values := [], slot_fills := [], overrides := [] }

/-- An instance node of a component (fresh instance metadata). -/
def instanceNodeOf (component_id : Nat) : Node :=
  { demoRect with kind := NodeKind.Instance (freshInstanceData component_id) }

/-- Engine fixture for variant switching: the scene holds an instance
node (id 1) of `cardComponent` with one child rectangle (id 2). -/
def cardEngine : Engine :=
  let s := (Scene.new.add_node (instanceNodeOf 1)).2
  let s := (s.add_node (demoRectAt 1 1 10 10 (some 1))).2
  { Engine.new with scene := s,
                    components := { components := [cardComponent], next_id := 2 } }

/-- Engine fixture whose instance node (id 1) refers to a component
with zero registered variants. -/
def emptyVariantEngine : Engine :=
  let s := (Scene.new.add_node (instanceNodeOf 1)).2
  let s := (s.add_node (demoRectAt 1 1 10 10 (some 1))).2
  { Engine.new with scene := s,
                    components := { components := [emptyComponent], next_id := 2 } }

/-- A variant key (parsed form of `{"size":"large"}`) that is not
registered on `cardComponent`. -/
def unregisteredKey : VariantKey :=
  [("size", VariantValue.string "large")]

/-- An override set carrying only a text override. -/
def textOverride : NodeOverrides :=
  { text := some "hi", fill_hex := none, visible := none }

/-- `singleRectScene` wrapped in an engine. -/
def singleRectEngine : Engine :=
  { Engine.new with scene := singleRectScene }

/-!  Spec-side notions for the subtree-removal claim: the descendant
tree a node spans through the child lists, and the full scene-graph
invariant of spec §3/§4.1. -/

/-- A rose tree of node ids, describing a scene subtree. -/
inductive NTree where
  | mk (id : Nat) (kids : List NTree)

/-- Root id of a subtree. -/
def NTree.idOf : NTree → Nat
  | NTree.mk i _ => i

/-- Child subtrees. -/
def NTree.kids : NTree → List NTree
  | NTree.mk _ ks => ks

mutual

/-- Pre-order id list of a subtree (root first, then each child
subtree in order — the order `remove_node` deletes in). -/
def NTree.flatten : NTree → List Nat
  | NTree.mk i ks => i :: NTree.flattenL ks

/-- Pre-order id list of a forest. -/
def NTree.flattenL : List NTree → List Nat
  | [] => []
  | t :: ts => t.flatten ++ NTree.flattenL ts

end

mutual

/-- The tree `t` matches the scene: its root is stored with exactly the
kid roots as its child list, and recursively each kid matches and
points back at its tree parent. -/
def Spans (s : Scene) : NTree → Prop
  | NTree.mk i ks =>
    (∃ n, s.get_node i = some n ∧ n.children = ks.map NTree.idOf) ∧ SpansL s i ks

/-- Each tree of the forest matches the scene and its root's parent
pointer names `parent`. -/
def SpansL (s : Scene) (parent : Nat) : List NTree → Prop
  | [] => True
  | t :: ts =>
    (Spans s t ∧ (∃ n, s.get_node t.idOf = some n ∧ n.parent = some parent)) ∧
      SpansL s parent ts

end

/-- The descendant tree of a node, read off the scene's child lists
(fuelled; on an acyclic scene depth is bounded by the node count). -/
def buildTreeF : Nat → Scene → Nat → NTree
  | 0, _, i => NTree.mk i []
  | fuel + 1, s, i =>
    NTree.mk i
      (match s.get_node i with
       | some n => n.children.map (buildTreeF fuel s)
       | none => [])

/-- The ids of a node and all of its descendants, in removal order. -/
def Scene.descendants (s : Scene) (id : Nat) : List Nat :=
  (buildTreeF (s.nodes.length + 1) s id).flatten

/-- Total number of child-list occurrences of an id across the scene. -/
def childCount (s : Scene) (d : Nat) : Nat :=
  (s.nodes.map (fun n => n.children.count d)).sum

/-- The scene-graph invariant of spec §3/§4.1: distinct stored ids below
the counter; root and child references point at stored nodes; every
stored id occurs in exactly one container (the root list or one child
list, once); parent pointers match the containing list; and the
child relation is acyclic, witnessed by a bounded rank that strictly
decreases from parent to child. -/
def SceneInv (s : Scene) : Prop :=
  (s.nodes.map Node.id).Nodup ∧
  (∀ m ∈ s.nodes, m.id < s.next_id) ∧
  (∀ d ∈ s.root_children, ∃ m ∈ s.nodes, m.id = d) ∧
  (∀ m ∈ s.nodes, ∀ c ∈ m.children, ∃ m2 ∈ s.nodes, m2.id = c) ∧
  (∀ m ∈ s.nodes, s.root_children.count m.id + childCount s m.id = 1) ∧
  (∀ m ∈ s.nodes,
    match m.parent with
    | none => m.id ∈ s.root_children
    | some p => ∃ q ∈ s.nodes, q.id = p ∧ m.id ∈ q.children) ∧
  (∃ rank : Nat → Nat,
    (∀ m ∈ s.nodes, rank m.id < s.nodes.length) ∧
    (∀ m ∈ s.nodes, ∀ c ∈ m.children, rank c < rank m.id))

/-- The ancestor relation read off parent pointers: `Reaches s d a`
means following parent links from `d` ends at `a` (possibly `d = a`). -/
inductive Reaches (s : Scene) : Nat → Nat → Prop where
  | refl (d : Nat) : Reaches s d d
  | step {d p a : Nat} {n : Node} (hn : s.get_node d = some n)
      (hp : n.parent = some p) (h : Reaches s p a) : Reaches s d a

/-- A root rectangle (id 1) holding one child (id 2). -/
def pairRoot : Node :=
  { demoRect with id := 1, children := [2] }

/-- The child rectangle (id 2) of `pairRoot`. -/
def pairChild : Node :=
  { demoRect with id := 2, parent := some 1 }

/-- A two-node scene: root 1 with child 2, both selected. -/
def pairScene : Scene :=
  { nodes := [pairRoot, pairChild], root_children := [1], next_id := 3,
    selection := [2, 1] }

/-!  Shared helper lemmas. -/

/-- `get_mut` on an id that is not stored changes nothing. -/
theorem Scene.updateNode_absent {s : Scene} {id : Nat} (h : s.get_node id = none)
    (f : Node → Node) : s.updateNode id f = s := by
  have hall : ∀ n ∈ s.nodes, (n.id == id) = false := by
    intro n hn
    have hne := List.find?_eq_none.mp h n hn
    simpa using hne
  unfold Scene.updateNode
  have hmap : s.nodes.map (fun n => if n.id == id then f n else n) = s.nodes := by
    have := List.map_congr_left (l := s.nodes)
      (f := fun n => if n.id == id then f n else n) (g := fun n => n)
      (fun n hn => by simp [hall n hn])
    simpa using this
  rw [hmap]

/-- No stored node carries an id at or above the counter, so the
`any`-check of `mapInsert` against a fresh id fails. -/
theorem any_id_eq_false {l : List Node} {k : Nat} (h : ∀ m ∈ l, m.id < k) :
    l.any (fun m => m.id == k) = false := by
  rw [List.any_eq_false]
  intro m hm
  simp [Nat.ne_of_lt (h m hm)]

/-- `HashMap::insert` with a key not yet present appends. -/
theorem mapInsert_of_fresh {l : List Node} {node : Node}
    (h : l.any (fun m => m.id == node.id) = false) :
    mapInsert l node = l ++ [node] := by
  unfold mapInsert
  rw [h]
  simp

/-!  Claim theorems. -/

/-- C2 (code_bug evaluation): on the failing input — a scene with a
single root rectangle, then `reparent(1, Some(1))` — the code stores
node 1 with itself as parent and as its own only child, and the root
list becomes empty: the stored node occurs in no container other than
its own child list and the parent relation has a cycle, contradicting
the claimed invariant that every mutating operation preserves
unique-container membership and acyclicity. -/
theorem c2_reparent_cycle_eval :
    (selfLoopScene.get_node 1).map (fun n => (n.parent, n.children)) = some (some 1, [1]) ∧
    selfLoopScene.root_children = [] ∧
    selfLoopScene.nodes.map Node.id = [1] := by
  refine ⟨?_, ?_, ?_⟩ <;> with_unfolding_all rfl

/-- C4 (counterexample): `reparent_node` called on the empty scene with
the nonexistent id 1 is not a no-op — it appends the dangling id to the
root list — refuting the claim that every public operation invoked with
an absent id leaves the engine state unchanged. -/
theorem c4_counterexample :
    Engine.new.scene.get_node 1 = none ∧
    Engine.new.scene.root_children = [] ∧
    (Engine.new.reparent_node 1 none).scene.root_children = [1] := by
  refine ⟨?_, ?_, ?_⟩ <;> with_unfolding_all rfl

/-- C4 (amended): with ids absent from the store, `duplicate_node` is a
genuine sentinel no-op (returns 0, engine unchanged), but the other two
operations the claim names break the contract: `reparent_node` appends
the dangling id to the root list, and `set_instance_override` returns
true (not a sentinel) while leaving the engine unchanged. -/
theorem c4_amended (e : Engine) (id target : Nat) (ov : NodeOverrides)
    (h : e.scene.get_node id = none) (ht : e.scene.get_node target = none) :
    e.duplicate_node id = (0, e) ∧
    (e.reparent_node id none).scene.root_children = e.scene.root_children ++ [id] ∧
    e.set_instance_override id target ov = (true, e) := by
  refine ⟨?_, ?_, ?_⟩
  · simp [Engine.duplicate_node, h]
  · simp [Engine.reparent_node, Scene.reparent, h, Scene.updateNode]
  · unfold Engine.set_instance_override
    rcases ov with ⟨text, fill_hex, visible⟩
    cases text <;> cases visible <;>
      simp [Scene.updateNode_absent h, Scene.updateNode_absent ht]

/-- C4 (witness): the amended statement at the empty engine with
ids 1 and 2 and a text override. -/
theorem c4_amended_witness :
    Engine.new.duplicate_node 1 = (0, Engine.new) ∧
    (Engine.new.reparent_node 1 none).scene.root_children = Engine.new.scene.root_children ++ [1] ∧
    Engine.new.set_instance_override 1 2 textOverride = (true, Engine.new) :=
  c4_amended Engine.new 1 2 textOverride (by with_unfolding_all rfl) (by with_unfolding_all rfl)

/-- C1 (counterexample): `set_instance_variant` on an instance of a
component whose default variant `""` is registered, called with the
parsed but unregistered key `{"size":"large"}`, returns true and
replaces the instance's child subtree (the prior child 2 is deleted),
refuting the claim that an unregistered key makes the call fail and
leave the children intact: `Component::get_variant` falls back to the
default variant on an exact-lookup miss. -/
theorem c1_counterexample :
    cardComponent.variants.find? (fun p => p.1 == variant_key_to_string unregisteredKey) = none ∧
    (cardEngine.scene.get_node 1).map Node.children = some [2] ∧
    (cardEngine.set_instance_variant 1 unregisteredKey).1 = true ∧
    ((cardEngine.set_instance_variant 1 unregisteredKey).2.scene.get_node 1).map Node.children = some [] := by
  refine ⟨?_, ?_, ?_, ?_⟩ <;> with_unfolding_all rfl

/-- C1 (amended): the exact-match lookup falls back to the component's
default variant key, so `set_instance_variant` with an unregistered
(parsed) key fails and leaves the engine — in particular the instance's
prior child subtree — untouched exactly when the default variant key is
unregistered as well. -/
theorem c1_amended (e : Engine) (instance_id : Nat) (node : Node) (d : InstanceData)
    (comp : Component) (key : VariantKey)
    (hn : e.scene.get_node instance_id = some node)
    (hk : node.kind = NodeKind.Instance d)
    (hc : e.components.get d.component_id = some comp)
    (hmiss : comp.variants.find? (fun p => p.1 == variant_key_to_string key) = none)
    (hdef : comp.variants.find? (fun p => p.1 == comp.default_variant_key) = none) :
    e.set_instance_variant instance_id key = (false, e) := by
  unfold Engine.set_instance_variant
  rw [hn]
  simp [hk, hc, Component.get_variant, hmiss, hdef]

/-- C1 (witness): the amended statement on an instance of a component
with zero registered variants. -/
theorem c1_amended_witness :
    emptyVariantEngine.set_instance_variant 1 unregisteredKey = (false, emptyVariantEngine) :=
  c1_amended emptyVariantEngine 1 { instanceNodeOf 1 with id := 1, children := [2] }
    (freshInstanceData 1) emptyComponent unregisteredKey
    (by with_unfolding_all rfl) (by with_unfolding_all rfl) (by with_unfolding_all rfl)
    (by with_unfolding_all rfl) (by with_unfolding_all rfl)

/-- C6: one layout pass on the grid fixture (2 columns, gap 10, content
width 220, visible children of heights 20, 30, 15 at ids 3, 4, 5 with
an invisible child id 2 before them in the child list): every visible
child's width is forced to the column width (220 − 10) / 2 = 105 while
its height is untouched; the children sit at (0, 0), (115, 0) and
(0, 40) — row 0's height being max(20, 30) = 30 plus the 10 gap — and
they are indexed by position among visible children only (the invisible
child is ignored and left untouched). -/
theorem c6_grid_layout :
    ((compute_layouts gridFixtureScene).get_node 3).map (fun n => (n.x, n.y, n.width, n.height)) =
      some (0, 0, (220 - 10) / 2, 20) ∧
    ((compute_layouts gridFixtureScene).get_node 4).map (fun n => (n.x, n.y, n.width, n.height)) =
      some (115, 0, 105, 30) ∧
    ((compute_layouts gridFixtureScene).get_node 5).map (fun n => (n.x, n.y, n.width, n.height)) =
      some (0, 40, 105, 15) ∧
    ((compute_layouts gridFixtureScene).get_node 2).map (fun n => (n.x, n.y, n.width, n.height)) =
      some (1, 1, 40, 33) := by
  refine ⟨?_, ?_, ?_, ?_⟩ <;> with_unfolding_all rfl

/-- C8: canonicalization is order-independent: two variant keys that
are equal as maps (a permutation of each other's entries) canonicalize
to the same sorted `name=value,...` string, hence `get_variant`
resolves them to the same stored variant on every component. -/
theorem c8_canonical_order_independent (k1 k2 : VariantKey) (h : List.Perm k1 k2) :
    variant_key_to_string k1 = variant_key_to_string k2 ∧
    ∀ c : Component, c.get_variant k1 = c.get_variant k2 := by
  have hs : variant_key_to_string k1 = variant_key_to_string k2 := by
    simp only [variant_key_to_string]
    have hperm :
        List.Perm
          (List.insertionSort (fun a b => a ≤ b)
            (k1.map (fun kv => kv.1 ++ "=" ++ kv.2.to_display)))
          (List.insertionSort (fun a b => a ≤ b)
            (k2.map (fun kv => kv.1 ++ "=" ++ kv.2.to_display))) :=
      ((List.perm_insertionSort _ _).trans
        ((h.map _).trans (List.perm_insertionSort _ _).symm))
    rw [List.eq_of_perm_of_sorted hperm
      (List.sorted_insertionSort _ _) (List.sorted_insertionSort _ _)]
  exact ⟨hs, fun c => by unfold Component.get_variant; rw [hs]⟩

/-- C8 (witness): the claim's example — `{a:true, b:"x"}` and
`{b:"x", a:true}` — canonicalizes identically and resolves identically
on the card component. -/
theorem c8_witness :
    variant_key_to_string [("a", VariantValue.boolean true), ("b", VariantValue.string "x")] =
      variant_key_to_string [("b", VariantValue.string "x"), ("a", VariantValue.boolean true)] ∧
    cardComponent.get_variant [("a", VariantValue.boolean true), ("b", VariantValue.string "x")] =
      cardComponent.get_variant [("b", VariantValue.string "x"), ("a", VariantValue.boolean true)] := by
  have h := c8_canonical_order_independent
    [("a", VariantValue.boolean true), ("b", VariantValue.string "x")]
    [("b", VariantValue.string "x"), ("a", VariantValue.boolean true)]
    (by decide)
  exact ⟨h.1, h.2 cardComponent⟩

/-- C10: `duplicate_node` on a stored node is a shallow copy: the one
new node carries the fresh id (the old counter value, which is also
returned), the original's attributes with position offset by
(+20, +20) and an empty child list; it is appended at the end of the
same container (the parent's child list when the original has a parent,
the root list otherwise); every previously stored node is unchanged
except that the parent gains the fresh id at the end of its child
list; the counter advances by one and the selection is untouched — so
the original node and its descendants are unchanged. -/
theorem c10_duplicate_shallow (e : Engine) (id : Nat) (n : Node)
    (hn : e.scene.get_node id = some n)
    (hfresh : ∀ m ∈ e.scene.nodes, m.id < e.scene.next_id) :
    e.duplicate_node id =
      (e.scene.next_id,
       { e with scene :=
          { e.scene with
              next_id := e.scene.next_id + 1,
              root_children :=
                match n.parent with
                | none => e.scene.root_children ++ [e.scene.next_id]
                | some _ => e.scene.root_children,
              nodes := (e.scene.nodes.map (fun m =>
                  if n.parent = some m.id
                  then { m with children := m.children ++ [e.scene.next_id] }
                  else m)) ++
                [{ n with id := e.scene.next_id, x := n.x + 20, y := n.y + 20,
                          children := [] }] } }) := by
  unfold Engine.duplicate_node
  rw [hn]
  show (_, { e with scene := (Scene.add_node _ _).2 }) = _
  unfold Scene.add_node
  cases hp : n.parent with
  | none =>
    simp only [hp]
    rw [mapInsert_of_fresh (any_id_eq_false hfresh)]
    have hid : (e.scene.nodes.map (fun m =>
        if (none : Option Nat) = some m.id
        then { m with children := m.children ++ [e.scene.next_id] }
        else m)) = e.scene.nodes := by
      have h1 : ∀ m ∈ e.scene.nodes,
          (if (none : Option Nat) = some m.id
           then { m with children := m.children ++ [e.scene.next_id] }
           else m) = m := fun m _ => by simp
      rw [List.map_congr_left h1, List.map_id']
    rw [hid]
  | some p =>
    simp only [hp]
    have hanymap :
        ((e.scene.nodes.map (fun m => if (m.id == p) = true
            then { m with children := m.children ++ [e.scene.next_id] } else m)).any
          (fun m => m.id == e.scene.next_id)) = false := by
      apply any_id_eq_false
      intro m hm
      rcases List.mem_map.mp hm with ⟨m0, hm0, rfl⟩
      by_cases hcase : (m0.id == p) = true <;> simp [hcase] <;> exact hfresh m0 hm0
    rw [Scene.updateNode]
    rw [mapInsert_of_fresh hanymap]
    have hmaps : (e.scene.nodes.map (fun m => if (m.id == p) = true
            then { m with children := m.children ++ [e.scene.next_id] } else m)) =
        (e.scene.nodes.map (fun m =>
          if some p = some m.id
          then { m with children := m.children ++ [e.scene.next_id] }
          else m)) := by
      apply List.map_congr_left
      intro m _
      by_cases hcase : m.id = p
      · simp [hcase]
      · have hps : ¬ (some p = some m.id) := by
          intro hcon
          exact hcase (Option.some.inj hcon).symm
        simp [hcase, hps]
    rw [hmaps]

/-- Truncating an appended list already truncated on the right. -/
theorem take_append_take {α : Type} (a b : List α) (k : Nat) :
    (a ++ b.take k).take k = (a ++ b).take k := by
  rw [List.take_append_eq_append_take, List.take_append_eq_append_take, List.take_take]
  have : min (k - a.length) k = k - a.length := Nat.min_eq_left (Nat.sub_le k a.length)
  rw [this]

/-- `push_undo` when the snapshot differs from the stack top and the
stack is within the cap: the snapshot is pushed (evicting the oldest
entry beyond 100) and the redo stack is cleared. -/
theorem push_undo_of_new {e : Engine} (hlen : e.undo_stack.length ≤ 100)
    (hne : e.undo_stack.head? ≠ some e.scene.export) :
    (e.push_undo).undo_stack = (e.scene.export :: e.undo_stack).take 100 ∧
    (e.push_undo).redo_stack = [] := by
  unfold Engine.push_undo
  rw [if_neg hne]
  constructor
  · show (if (e.scene.export :: e.undo_stack).length > 100
         then (e.scene.export :: e.undo_stack).dropLast
         else e.scene.export :: e.undo_stack) = List.take 100 (e.scene.export :: e.undo_stack)
    by_cases h : (e.scene.export :: e.undo_stack).length > 100
    · rw [if_pos h]
      have h101 : (e.scene.export :: e.undo_stack).length = 101 := by
        simp only [List.length_cons] at h ⊢
        omega
      rw [List.dropLast_eq_take, h101]
    · rw [if_neg h]
      have hle : (e.scene.export :: e.undo_stack).length ≤ 100 := by
        simp only [List.length_cons, gt_iff_lt, not_lt] at h ⊢
        omega
      rw [List.take_of_length_le hle]
  · rfl

/-- The undo stack after a run of checkpoints with pairwise distinct
adjacent snapshots: the reversed snapshot list (newest first) atop the
initial stack, truncated to the 100-entry cap; the redo stack is
cleared by the first checkpoint. -/
theorem checkpoints_stacks : ∀ (xs : List Scene) (e : Engine),
    e.undo_stack.length ≤ 100 →
    (xs.map Scene.export).Chain' (fun a b => a ≠ b) →
    (∀ x, xs.head? = some x → e.undo_stack.head? ≠ some x.export) →
    (checkpoints e xs).undo_stack = ((xs.map Scene.export).reverse ++ e.undo_stack).take 100 ∧
    (checkpoints e xs).redo_stack = (if xs.isEmpty then e.redo_stack else [])
  | [], e, hlen, _, _ => by
    constructor
    · simp only [checkpoints, List.foldl_nil, List.map_nil, List.reverse_nil, List.nil_append]
      exact (List.take_of_length_le hlen).symm
    · rfl
  | x :: xs, e, hlen, hchain, hhead => by
    have hne : ({ e with scene := x } : Engine).undo_stack.head? ≠
        some ({ e with scene := x } : Engine).scene.export := hhead x rfl
    have hp := push_undo_of_new (e := { e with scene := x }) hlen hne
    have hchain2 := (List.chain'_cons'.mp (by simpa using hchain))
    have ih := checkpoints_stacks xs (Engine.push_undo { e with scene := x })
      (by rw [hp.1]; exact List.length_take_le _ _)
      hchain2.2
      (by
        intro y hy
        rw [hp.1]
        show ¬ (List.take 100 (x.export :: e.undo_stack)).head? = some y.export
        have h100 : (100 : Nat) = 99 + 1 := rfl
        rw [h100, List.take_succ_cons]
        simp only [List.head?_cons, Option.some.injEq]
        have := hchain2.1 y.export (by rw [List.head?_map, hy]; rfl)
        exact this)
    have hstep : checkpoints e (x :: xs) = checkpoints (Engine.push_undo { e with scene := x }) xs := rfl
    rw [hstep, ih.1, ih.2, hp.1, hp.2]
    constructor
    · rw [take_append_take]
      have : (List.map Scene.export (x :: xs)).reverse ++ e.undo_stack =
          (List.map Scene.export xs).reverse ++ (x.export :: e.undo_stack) := by
        simp only [List.map_cons, List.reverse_cons, List.append_assoc, List.singleton_append]
      rw [this]
    · simp

/-- C7: starting from an empty undo stack, 150 sequential checkpoints
whose snapshots are pairwise distinct from their predecessor push every
snapshot (no dedup skip), cap the stack at 100 by evicting the oldest,
and leave the redo stack empty; the final undo stack holds exactly the
100 most recent snapshots (newest at the top of the stack). -/
theorem c7_history_cap (e : Engine) (ss : List Scene)
    (h0 : e.undo_stack = [])
    (hlen : ss.length = 150)
    (hdist : (ss.map Scene.export).Chain' (fun a b => a ≠ b)) :
    (checkpoints e ss).undo_stack = ((ss.map Scene.export).drop 50).reverse ∧
    (checkpoints e ss).undo_stack.length = 100 ∧
    (checkpoints e ss).redo_stack = [] := by
  have h := checkpoints_stacks ss e (by rw [h0]; simp) hdist
    (by intro x _; rw [h0]; simp)
  have hml : (ss.map Scene.export).length = 150 := by simp [hlen]
  have hmain : (checkpoints e ss).undo_stack = ((ss.map Scene.export).drop 50).reverse := by
    rw [h.1, h0, List.append_nil, List.take_reverse, hml]
  refine ⟨hmain, ?_, ?_⟩
  · rw [hmain]
    simp [hml, hlen]
  · rw [h.2]
    have : ss ≠ [] := by
      intro hcon
      rw [hcon] at hlen
      simp at hlen
    simp [this]

/-- C7 (witness): 150 concrete states (empty scenes with distinct id
counters) checkpointed from the fresh engine. -/
theorem c7_witness :
    (checkpoints Engine.new ((List.range 150).map (fun i => { Scene.new with next_id := i }))).undo_stack =
      ((((List.range 150).map (fun i => { Scene.new with next_id := i })).map Scene.export).drop 50).reverse ∧
    (checkpoints Engine.new ((List.range 150).map (fun i => { Scene.new with next_id := i }))).undo_stack.length = 100 ∧
    (checkpoints Engine.new ((List.range 150).map (fun i => { Scene.new with next_id := i }))).redo_stack = [] :=
  c7_history_cap Engine.new ((List.range 150).map (fun i => { Scene.new with next_id := i }))
    rfl (by simp)
    (by
      rw [List.map_map]
      apply List.Pairwise.chain'
      rw [List.pairwise_map]
      apply (List.pairwise_lt_range 150).imp
      intro a b hlt hcon
      have : a = b := by
        have := congrArg SceneData.next_id hcon
        simpa [Scene.export] using this
      omega)

/-- Every scene mutation leaves the history stacks and the component
store untouched (they only rewrite the scene). -/
theorem Mutation.apply_preserves (m : Mutation) (e : Engine) :
    (m.apply e).undo_stack = e.undo_stack ∧
    (m.apply e).redo_stack = e.redo_stack ∧
    (m.apply e).components = e.components := by
  cases m <;> try exact ⟨rfl, rfl, rfl⟩
  case add_to_selection id =>
    simp only [Mutation.apply]
    unfold Engine.add_to_selection
    split <;> exact ⟨rfl, rfl, rfl⟩
  case duplicate_node id =>
    simp only [Mutation.apply]
    unfold Engine.duplicate_node
    cases e.scene.get_node id <;> exact ⟨rfl, rfl, rfl⟩

/-- A sequence of scene mutations leaves the history stacks and the
component store untouched. -/
theorem applyMuts_preserves (ms : List Mutation) (e : Engine) :
    (applyMuts ms e).undo_stack = e.undo_stack ∧
    (applyMuts ms e).redo_stack = e.redo_stack ∧
    (applyMuts ms e).components = e.components := by
  induction ms generalizing e with
  | nil => exact ⟨rfl, rfl, rfl⟩
  | cons m ms ih =>
    have h1 := Mutation.apply_preserves m e
    have h2 := ih (m.apply e)
    exact ⟨h2.1.trans h1.1, h2.2.1.trans h1.2.1, h2.2.2.trans h1.2.2⟩

/-- `updateNode` preserves the stored id list whenever the rewriting
function preserves each node's id (all engine setters do). -/
theorem updateNode_ids (s : Scene) (id : Nat) (f : Node → Node)
    (hf : ∀ n, (f n).id = n.id) :
    (s.updateNode id f).nodes.map Node.id = s.nodes.map Node.id ∧
    (s.updateNode id f).next_id = s.next_id := by
  refine ⟨?_, rfl⟩
  unfold Scene.updateNode
  rw [List.map_map]
  apply List.map_congr_left
  intro n _
  show (if (n.id == id) = true then f n else n).id = n.id
  by_cases h : (n.id == id) = true
  · rw [if_pos h]
    exact hf n
  · rw [if_neg h]

/-- `updateNode` with an id-preserving function keeps the node-map
invariants. -/
theorem updateNode_wf {s : Scene} (id : Nat) (f : Node → Node)
    (hf : ∀ n, (f n).id = n.id) (h : SceneWF0 s) : SceneWF0 (s.updateNode id f) := by
  obtain ⟨hids, hnext⟩ := updateNode_ids s id f hf
  refine ⟨by rw [hids]; exact h.1, ?_⟩
  intro m hm
  rw [hnext]
  unfold Scene.updateNode at hm
  rcases List.mem_map.mp hm with ⟨m0, hm0, rfl⟩
  by_cases hc : (m0.id == id) = true <;> simp [hc, hf] <;> exact h.2 m0 hm0

/-- `add_node` appends exactly the fresh id (the counter value) and
advances the counter. -/
theorem add_node_ids (s : Scene) (node : Node) (h : ∀ m ∈ s.nodes, m.id < s.next_id) :
    (s.add_node node).2.nodes.map Node.id = s.nodes.map Node.id ++ [s.next_id] ∧
    (s.add_node node).2.next_id = s.next_id + 1 := by
  simp only [Scene.add_node]
  cases hp : node.parent with
  | none =>
    rw [mapInsert_of_fresh (any_id_eq_false h)]
    simp
  | some pid =>
    have hup := updateNode_ids { s with next_id := s.next_id + 1 } pid
      (fun p => { p with children := p.children ++ [s.next_id] }) (fun n => rfl)
    have hany : ((({ s with next_id := s.next_id + 1 } : Scene).updateNode pid
        (fun p => { p with children := p.children ++ [s.next_id] })).nodes.any
          (fun m => m.id == s.next_id)) = false := by
      apply any_id_eq_false
      intro m hm
      unfold Scene.updateNode at hm
      rcases List.mem_map.mp hm with ⟨m0, hm0, rfl⟩
      by_cases hc : (m0.id == pid) = true <;> simp [hc] <;> exact h m0 hm0
    rw [mapInsert_of_fresh hany]
    simp only [List.map_append, List.map_cons, List.map_nil]
    rw [hup.1]
    exact ⟨rfl, hup.2⟩

/-- `add_node` keeps the node-map invariants. -/
theorem add_node_wf {s : Scene} (node : Node) (h : SceneWF0 s) :
    SceneWF0 (s.add_node node).2 := by
  obtain ⟨hids, hnext⟩ := add_node_ids s node h.2
  constructor
  · rw [hids]
    rw [List.nodup_append]
    refine ⟨h.1, List.nodup_singleton _, ?_⟩
    intro a ha hb
    simp only [List.mem_singleton] at hb
    rcases List.mem_map.mp ha with ⟨m0, hm0, rfl⟩
    exact absurd hb (Nat.ne_of_lt (h.2 m0 hm0))
  · intro m hm
    rw [hnext]
    have : m.id ∈ (s.add_node node).2.nodes.map Node.id := List.mem_map_of_mem _ hm
    rw [hids] at this
    rcases List.mem_append.mp this with hl | hr
    · rcases List.mem_map.mp hl with ⟨m0, hm0, he⟩
      have := h.2 m0 hm0
      omega
    · simp only [List.mem_singleton] at hr
      omega

/-- `removeNodeF` only ever deletes node-map entries: the surviving id
list is a sublist of the original and the counter is untouched. -/
theorem removeNodeF_shrink (fuel : Nat) : ∀ (id : Nat) (s : Scene),
    ((Scene.removeNodeF fuel s id).nodes.map Node.id).Sublist (s.nodes.map Node.id) ∧
    (Scene.removeNodeF fuel s id).next_id = s.next_id := by
  induction fuel with
  | zero => intro id s; exact ⟨List.Sublist.refl _, rfl⟩
  | succ fuel ih =>
    intro id s
    have hfold : ∀ (cs : List Nat) (t : Scene),
        ((cs.foldl (fun acc c => Scene.removeNodeF fuel acc c) t).nodes.map Node.id).Sublist
          (t.nodes.map Node.id) ∧
        (cs.foldl (fun acc c => Scene.removeNodeF fuel acc c) t).next_id = t.next_id := by
      intro cs
      induction cs with
      | nil => intro t; exact ⟨List.Sublist.refl _, rfl⟩
      | cons c cs ihc =>
        intro t
        simp only [List.foldl_cons]
        exact ⟨((ihc _).1).trans (ih c t).1, ((ihc _).2).trans (ih c t).2⟩
    cases hg : s.get_node id with
    | none =>
      simp only [Scene.removeNodeF, hg]
      exact ⟨List.Sublist.refl _, trivial⟩
    | some node =>
      simp only [Scene.removeNodeF, hg]
      cases hp : node.parent with
      | none =>
        obtain ⟨hfs, hfn⟩ := hfold node.children
          { s with nodes := s.nodes.filter (fun n => n.id != id),
                   root_children := s.root_children.filter (fun c => c != id) }
        exact ⟨hfs.trans ((List.filter_sublist _).map Node.id), hfn⟩
      | some parent_id =>
        obtain ⟨hupids, hupnext⟩ := updateNode_ids
          { s with nodes := s.nodes.filter (fun n => n.id != id),
                   root_children := s.root_children.filter (fun c => c != id) }
          parent_id (fun p => { p with children := p.children.filter (fun c => c != id) })
          (fun n => rfl)
        obtain ⟨hfs, hfn⟩ := hfold node.children
          (({ s with nodes := s.nodes.filter (fun n => n.id != id),
                     root_children := s.root_children.filter (fun c => c != id) } : Scene).updateNode
            parent_id (fun p => { p with children := p.children.filter (fun c => c != id) }))
        refine ⟨hfs.trans ?_, hfn.trans hupnext⟩
        rw [hupids]
        exact (List.filter_sublist _).map Node.id

/-- `remove_node` keeps the node-map invariants. -/
theorem remove_node_wf {s : Scene} (id : Nat) (h : SceneWF0 s) :
    SceneWF0 (s.remove_node id) := by
  obtain ⟨hsub, hnext⟩ := removeNodeF_shrink (s.nodes.length + 1) id s
  constructor
  · exact h.1.sublist hsub
  · intro m hm
    show m.id < (Scene.removeNodeF (s.nodes.length + 1) s id).next_id
    rw [hnext]
    have hin : m.id ∈ (Scene.removeNodeF (s.nodes.length + 1) s id).nodes.map Node.id :=
      List.mem_map_of_mem _ hm
    have hmem := hsub.mem hin
    rcases List.mem_map.mp hmem with ⟨m0, hm0, he⟩
    have := h.2 m0 hm0
    omega

/-- `reparent` does not change the stored id list or the counter. -/
theorem reparent_ids (s : Scene) (node_id : Nat) (new_parent : Option Nat) :
    (s.reparent node_id new_parent).nodes.map Node.id = s.nodes.map Node.id ∧
    (s.reparent node_id new_parent).next_id = s.next_id := by
  have hattach : ∀ t : Scene,
      t.nodes.map Node.id = s.nodes.map Node.id → t.next_id = s.next_id →
      ∀ np : Option Nat,
      ((match np with
        | some pid =>
          (t.updateNode pid (fun p => { p with children := p.children ++ [node_id] })).updateNode
            node_id (fun n => { n with parent := some pid })
        | none =>
          ({ t with root_children := t.root_children ++ [node_id] } : Scene).updateNode
            node_id (fun n => { n with parent := none })).nodes.map Node.id
          = s.nodes.map Node.id) ∧
      ((match np with
        | some pid =>
          (t.updateNode pid (fun p => { p with children := p.children ++ [node_id] })).updateNode
            node_id (fun n => { n with parent := some pid })
        | none =>
          ({ t with root_children := t.root_children ++ [node_id] } : Scene).updateNode
            node_id (fun n => { n with parent := none })).next_id = s.next_id) := by
    intro t ht1 ht2 np
    cases np with
    | some pid =>
      obtain ⟨ha1, ha2⟩ := updateNode_ids t pid
        (fun p => { p with children := p.children ++ [node_id] }) (fun n => rfl)
      obtain ⟨hb1, hb2⟩ := updateNode_ids
        (t.updateNode pid (fun p => { p with children := p.children ++ [node_id] })) node_id
        (fun n => { n with parent := some pid }) (fun n => rfl)
      exact ⟨(hb1.trans ha1).trans ht1, (hb2.trans ha2).trans ht2⟩
    | none =>
      obtain ⟨hb1, hb2⟩ := updateNode_ids
        ({ t with root_children := t.root_children ++ [node_id] } : Scene) node_id
        (fun n => { n with parent := none }) (fun n => rfl)
      exact ⟨hb1.trans ht1, hb2.trans ht2⟩
  cases hg : s.get_node node_id with
  | none =>
    simp only [Scene.reparent, hg]
    exact hattach s rfl rfl new_parent
  | some node =>
    cases hp : node.parent with
    | none =>
      simp only [Scene.reparent, hg, hp]
      exact hattach { s with root_children := s.root_children.filter (fun c => c != node_id) }
        rfl rfl new_parent
    | some old_parent =>
      simp only [Scene.reparent, hg, hp]
      obtain ⟨hd1, hd2⟩ := updateNode_ids s old_parent
        (fun p => { p with children := p.children.filter (fun c => c != node_id) }) (fun n => rfl)
      exact hattach
        (s.updateNode old_parent
          (fun p => { p with children := p.children.filter (fun c => c != node_id) }))
        hd1 hd2 new_parent

/-- Every scene mutation keeps the node-map invariants. -/
theorem Mutation.apply_wf (m : Mutation) (e : Engine) (h : SceneWF0 e.scene) :
    SceneWF0 (m.apply e).scene := by
  have hwid : ∀ (s : Scene) (x : List Nat), SceneWF0 s →
      SceneWF0 { s with selection := x } := by
    intro s x hs
    exact ⟨hs.1, hs.2⟩
  cases m
  case add_rect x y w h2 =>
    exact add_node_wf { node_new 0 NodeKind.Rect with x := x, y := y, width := w, height := h2, name := "Rect " ++ toString (e.scene.node_count + 1) } h
  case add_ellipse x y w h2 =>
    exact add_node_wf { node_new 0 NodeKind.Ellipse with x := x, y := y, width := w, height := h2, name := "Ellipse " ++ toString (e.scene.node_count + 1) } h
  case add_text x y c fs =>
    exact add_node_wf { node_new 0 (NodeKind.Text c fs "Inter") with x := x, y := y, width := (c.length : ℚ) * fs * (3 / 5), height := fs * (6 / 5), name := "Text " ++ toString (e.scene.node_count + 1), fill := some ⟨⟨0, 0, 0, 1⟩⟩ } h
  case add_frame x y w h2 =>
    exact add_node_wf { node_new 0 NodeKind.Frame with x := x, y := y, width := w, height := h2, name := "Frame " ++ toString (e.scene.node_count + 1), fill := some ⟨⟨255, 255, 255, 1⟩⟩ } h
  case remove_node id => exact remove_node_wf id h
  case move_node id dx dy => exact updateNode_wf id _ (fun n => rfl) h
  case resize_node id w h2 => exact updateNode_wf id _ (fun n => rfl) h
  case set_node_position id x y => exact updateNode_wf id _ (fun n => rfl) h
  case set_fill_color id r g b a => exact updateNode_wf id _ (fun n => rfl) h
  case set_stroke id r g b a w => exact updateNode_wf id _ (fun n => rfl) h
  case set_corner_radius id radius => exact updateNode_wf id _ (fun n => rfl) h
  case set_opacity id o => exact updateNode_wf id _ (fun n => rfl) h
  case set_node_name id name => exact updateNode_wf id _ (fun n => rfl) h
  case set_text_content id c =>
    refine updateNode_wf id _ ?_ h
    intro n
    cases n.kind <;> rfl
  case set_font_size id sz =>
    refine updateNode_wf id _ ?_ h
    intro n
    cases n.kind <;> rfl
  case set_font_family id f =>
    refine updateNode_wf id _ ?_ h
    intro n
    cases n.kind <;> rfl
  case set_visible id v => exact updateNode_wf id _ (fun n => rfl) h
  case set_locked id v => exact updateNode_wf id _ (fun n => rfl) h
  case select id => exact hwid e.scene [id] h
  case add_to_selection id =>
    show SceneWF0 (Engine.add_to_selection e id).scene
    unfold Engine.add_to_selection
    split
    · exact h
    · exact hwid e.scene (e.scene.selection ++ [id]) h
  case deselect_all => exact hwid e.scene [] h
  case reparent_node id p =>
    obtain ⟨h1, h2⟩ := reparent_ids e.scene id p
    show SceneWF0 (e.scene.reparent id p)
    constructor
    · rw [h1]; exact h.1
    · intro m hm
      rw [h2]
      have : m.id ∈ (e.scene.reparent id p).nodes.map Node.id := List.mem_map_of_mem _ hm
      rw [h1] at this
      rcases List.mem_map.mp this with ⟨m0, hm0, he⟩
      have := h.2 m0 hm0
      omega
  case duplicate_node id =>
    show SceneWF0 (e.duplicate_node id).2.scene
    unfold Engine.duplicate_node
    cases e.scene.get_node id with
    | none => exact h
    | some n => exact add_node_wf _ h
  case set_layout_mode id mode => exact updateNode_wf id _ (fun n => rfl) h
  case set_flex_direction id d => exact updateNode_wf id _ (fun n => rfl) h
  case set_align_items id a => exact updateNode_wf id _ (fun n => rfl) h
  case set_justify_content id j => exact updateNode_wf id _ (fun n => rfl) h
  case set_layout_gap id g => exact updateNode_wf id _ (fun n => rfl) h
  case set_layout_padding id t r b l => exact updateNode_wf id _ (fun n => rfl) h
  case set_grid_columns id c => exact updateNode_wf id _ (fun n => rfl) h
  case set_flex_wrap id w => exact updateNode_wf id _ (fun n => rfl) h

/-- A sequence of scene mutations keeps the node-map invariants. -/
theorem applyMuts_wf (ms : List Mutation) (e : Engine) (h : SceneWF0 e.scene) :
    SceneWF0 (applyMuts ms e).scene := by
  induction ms generalizing e with
  | nil => exact h
  | cons m ms ih => exact ih (m.apply e) (Mutation.apply_wf m e h)

/-- Inserting a batch of nodes with pairwise fresh ids into a map is
plain concatenation. -/
theorem foldl_mapInsert_of_nodup : ∀ (l acc : List Node),
    (((acc ++ l).map Node.id).Nodup) → l.foldl mapInsert acc = acc ++ l := by
  intro l
  induction l with
  | nil => intro acc _; simp
  | cons x xs ihx =>
    intro acc h
    simp only [List.foldl_cons]
    have hdisj : List.Disjoint (acc.map Node.id) ((x :: xs).map Node.id) := by
      apply List.disjoint_of_nodup_append
      rw [← List.map_append]
      exact h
    have hany : acc.any (fun m => m.id == x.id) = false := by
      rw [List.any_eq_false]
      intro m hm
      have hmm : m.id ∈ acc.map Node.id := List.mem_map_of_mem _ hm
      have hne : m.id ≠ x.id := by
        intro hcon
        exact hdisj hmm (by rw [hcon]; exact List.mem_map_of_mem _ (List.mem_cons_self x xs))
      simp [hne]
    rw [mapInsert_of_fresh hany]
    rw [ihx (acc ++ [x]) (by rw [List.append_assoc, List.singleton_append]; exact h)]
    simp

/-- Deserializing a serialized scene restores the node map, root order
and counter exactly (selection resets), provided the stored ids are
distinct, as the engine maintains. -/
theorem import_export (s : Scene) (h : (s.nodes.map Node.id).Nodup) :
    Scene.import s.export =
      { nodes := s.nodes, root_children := s.root_children, next_id := s.next_id,
        selection := [] } := by
  unfold Scene.import Scene.export
  rw [foldl_mapInsert_of_nodup s.nodes [] (by simpa using h)]
  rw [List.nil_append]

/-- `push_undo` never touches the scene or component store. -/
theorem push_undo_preserves (e : Engine) :
    (e.push_undo).scene = e.scene ∧ (e.push_undo).components = e.components := by
  unfold Engine.push_undo
  by_cases h : e.undo_stack.head? = some e.scene.export
  · rw [if_pos h]
    exact ⟨rfl, rfl⟩
  · rw [if_neg h]
    exact ⟨rfl, rfl⟩

/-- After `push_undo` the top of the undo stack is always the snapshot
of the current scene (whether the push happened or was skipped as a
byte-identical duplicate). -/
theorem push_undo_top (e : Engine) :
    ∃ rest, (e.push_undo).undo_stack = e.scene.export :: rest := by
  unfold Engine.push_undo
  by_cases h : e.undo_stack.head? = some e.scene.export
  · rw [if_pos h]
    cases hu : e.undo_stack with
    | nil => rw [hu] at h; simp at h
    | cons a t =>
      rw [hu] at h
      simp only [List.head?_cons, Option.some.injEq] at h
      exact ⟨t, by rw [h]⟩
  · rw [if_neg h]
    by_cases hlen : (e.scene.export :: e.undo_stack).length > 100
    · refine ⟨e.undo_stack.dropLast, ?_⟩
      show (if (e.scene.export :: e.undo_stack).length > 100
            then (e.scene.export :: e.undo_stack).dropLast
            else e.scene.export :: e.undo_stack) = _
      rw [if_pos hlen]
      cases hu : e.undo_stack with
      | nil => rw [hu] at hlen; simp at hlen
      | cons a t => rfl
    · refine ⟨e.undo_stack, ?_⟩
      show (if (e.scene.export :: e.undo_stack).length > 100
            then (e.scene.export :: e.undo_stack).dropLast
            else e.scene.export :: e.undo_stack) = _
      rw [if_neg hlen]

/-- C3: checkpoint, mutate arbitrarily, undo, redo.  From any engine
whose scene satisfies the node-map invariants: after `push_undo()` and
any sequence of scene mutations, `undo()` returns true and restores a
scene whose export (node set, parent/child structure, root order, id
counter) equals the export taken at the checkpoint, while the selection
is the pre-undo selection filtered to ids that still exist in the
restored scene; a subsequent `redo()` returns true and restores the
post-mutation exported scene. -/
theorem c3_undo_redo (e : Engine) (ms : List Mutation) (hw : SceneWF0 e.scene) :
    ((applyMuts ms e.push_undo).undo.1 = true) ∧
    ((applyMuts ms e.push_undo).undo.2.scene.export = e.scene.export) ∧
    ((applyMuts ms e.push_undo).undo.2.scene.selection =
      (applyMuts ms e.push_undo).scene.selection.filter
        (fun i => (e.scene.get_node i).isSome)) ∧
    ((applyMuts ms e.push_undo).undo.2.redo.1 = true) ∧
    ((applyMuts ms e.push_undo).undo.2.redo.2.scene.export =
      (applyMuts ms e.push_undo).scene.export) := by
  obtain ⟨rest, hstack⟩ := push_undo_top e
  have hpres := applyMuts_preserves ms e.push_undo
  have hscene := push_undo_preserves e
  have hw1 : SceneWF0 (e.push_undo).scene := by rw [hscene.1]; exact hw
  have hw2 : SceneWF0 (applyMuts ms e.push_undo).scene := applyMuts_wf ms _ hw1
  have hstack2 : (applyMuts ms e.push_undo).undo_stack = e.scene.export :: rest :=
    hpres.1.trans hstack
  have hroundtrip := import_export e.scene hw.1
  have hget : ∀ i, (Scene.import e.scene.export).get_node i = e.scene.get_node i := by
    intro i
    rw [hroundtrip]
    rfl
  have hundo :
      (applyMuts ms e.push_undo).undo =
      (true,
       { applyMuts ms e.push_undo with
          scene :=
            { Scene.import e.scene.export with
                selection := (applyMuts ms e.push_undo).scene.selection.filter
                  (fun i => ((Scene.import e.scene.export).get_node i).isSome) },
          undo_stack := rest,
          redo_stack := (applyMuts ms e.push_undo).scene.export ::
            (applyMuts ms e.push_undo).redo_stack }) := by
    unfold Engine.undo
    rw [hstack2]
  rw [hundo]
  have hexp : ({ Scene.import e.scene.export with
      selection := (applyMuts ms e.push_undo).scene.selection.filter
        (fun i => ((Scene.import e.scene.export).get_node i).isSome) } : Scene).export =
      e.scene.export := by
    rw [hroundtrip]
    rfl
  refine ⟨rfl, hexp, ?_, ?_, ?_⟩
  · show (applyMuts ms e.push_undo).scene.selection.filter
        (fun i => ((Scene.import e.scene.export).get_node i).isSome) = _
    apply List.filter_congr
    intro i _
    rw [hget i]
  · rfl
  · show (Scene.import ((applyMuts ms e.push_undo).scene.export)).export = _
    have hr2 := import_export (applyMuts ms e.push_undo).scene hw2.1
    rw [hr2]
    rfl

/-- Unfolding of `flatten` on a built tree node. -/
@[simp]
theorem flatten_mk (i : Nat) (ks : List NTree) :
    (NTree.mk i ks).flatten = i :: NTree.flattenL ks := by
  simp [NTree.flatten]

/-- Unfolding of `flattenL` on the empty forest. -/
@[simp]
theorem flattenL_nil : NTree.flattenL [] = [] := by
  simp [NTree.flattenL]

/-- Unfolding of `flattenL` on a forest cons cell. -/
@[simp]
theorem flattenL_cons (t : NTree) (ts : List NTree) :
    NTree.flattenL (t :: ts) = t.flatten ++ NTree.flattenL ts := by
  simp [NTree.flattenL]

/-- A successful lookup's node is a stored entry carrying that id. -/
theorem get_node_some_mem {s : Scene} {j : Nat} {n : Node} (h : s.get_node j = some n) :
    n ∈ s.nodes ∧ n.id = j :=
  ⟨List.mem_of_find?_eq_some h, by simpa using List.find?_some h⟩

/-- With pairwise distinct ids, looking up a stored entry's id finds
that entry. -/
theorem find?_id_mem_nodup : ∀ (l : List Node), (l.map Node.id).Nodup →
    ∀ {n : Node}, n ∈ l → l.find? (fun m => m.id == n.id) = some n := by
  intro l
  induction l with
  | nil => intro _ n hn; exact absurd hn (List.not_mem_nil n)
  | cons m tl ih =>
    intro hids n hn
    have hids1 : (m.id :: tl.map Node.id).Nodup := by
      simpa only [List.map_cons] using hids
    have hids2 := List.nodup_cons.mp hids1
    rcases List.mem_cons.mp hn with rfl | htail
    · exact List.find?_cons_of_pos _ (by simp)
    · have hne : m.id ≠ n.id := by
        intro hcon
        exact hids2.1 (hcon ▸ List.mem_map_of_mem Node.id htail)
      rw [List.find?_cons_of_neg _ (by simp [hne])]
      exact ih hids2.2 htail

/-- Scene-level form of `find?_id_mem_nodup`. -/
theorem get_node_mem_nodup {s : Scene} (hids : (s.nodes.map Node.id).Nodup)
    {n : Node} (hn : n ∈ s.nodes) : s.get_node n.id = some n :=
  find?_id_mem_nodup s.nodes hids hn

/-- `find?` commutes with a filter that keeps every hit. -/
theorem find?_filter (l : List Node) (p q : Node → Bool)
    (h : ∀ n ∈ l, p n = true → q n = true) :
    (l.filter q).find? p = l.find? p := by
  induction l with
  | nil => rfl
  | cons a tl ih =>
    by_cases hp : p a = true
    · rw [List.find?_cons_of_pos _ hp]
      rw [List.filter_cons_of_pos (h a (List.mem_cons_self a tl) hp)]
      rw [List.find?_cons_of_pos _ hp]
    · have htl := ih (fun n hn => h n (List.mem_cons_of_mem a hn))
      by_cases hq : q a = true
      · rw [List.filter_cons_of_pos hq, List.find?_cons_of_neg _ hp,
            List.find?_cons_of_neg _ hp]
        exact htl
      · rw [List.filter_cons_of_neg (by simpa using hq), List.find?_cons_of_neg _ hp]
        exact htl

/-- Filtering by id commutes with mapping an id-preserving function. -/
theorem filter_map_swap (l : List Node) (g : Node → Node)
    (hg : ∀ n, (g n).id = n.id) (q : Nat → Bool) :
    (l.map g).filter (fun n => q n.id) = (l.filter (fun n => q n.id)).map g := by
  induction l with
  | nil => rfl
  | cons a tl ih =>
    by_cases hq : q a.id = true
    · simp [List.filter_cons, hg, hq, ih]
    · simp [List.filter_cons, hg, hq, ih]

/-- A single stored entry's contribution bounds into the scene-wide
child-occurrence sum. -/
theorem one_entry_le {l : List Node} {m : Node} (hm : m ∈ l) (f : Node → Nat) :
    f m ≤ (l.map f).sum :=
  List.single_le_sum (fun x _ => Nat.zero_le x) (f m) (List.mem_map_of_mem f hm)

/-- Two distinct stored entries contribute separately to the scene-wide
child-occurrence sum. -/
theorem two_entries_le {l : List Node} {m1 m2 : Node} (f : Node → Nat) :
    m1 ∈ l → m2 ∈ l → m1.id ≠ m2.id → f m1 + f m2 ≤ (l.map f).sum := by
  induction l with
  | nil => intro h1; exact absurd h1 (List.not_mem_nil m1)
  | cons a tl ih =>
    intro h1 h2 hne
    rcases List.mem_cons.mp h1 with rfl | h1t
    · have h2t : m2 ∈ tl := by
        rcases List.mem_cons.mp h2 with rfl | h
        · exact absurd rfl hne
        · exact h
      simp only [List.map_cons, List.sum_cons]
      exact Nat.add_le_add_left (one_entry_le h2t f) (f m1)
    · rcases List.mem_cons.mp h2 with rfl | h2t
      · simp only [List.map_cons, List.sum_cons]
        have := one_entry_le h1t f
        omega
      · simp only [List.map_cons, List.sum_cons]
        have := ih h1t h2t hne
        omega

/-- C3 (witness): the fresh engine, checkpointed, mutated by adding a
rectangle, then undone and redone. -/
theorem c3_witness :
    ((applyMuts [Mutation.add_rect 0 0 10 10] Engine.new.push_undo).undo.1 = true) ∧
    ((applyMuts [Mutation.add_rect 0 0 10 10] Engine.new.push_undo).undo.2.scene.export =
      Engine.new.scene.export) ∧
    ((applyMuts [Mutation.add_rect 0 0 10 10] Engine.new.push_undo).undo.2.scene.selection =
      (applyMuts [Mutation.add_rect 0 0 10 10] Engine.new.push_undo).scene.selection.filter
        (fun i => (Engine.new.scene.get_node i).isSome)) ∧
    ((applyMuts [Mutation.add_rect 0 0 10 10] Engine.new.push_undo).undo.2.redo.1 = true) ∧
    ((applyMuts [Mutation.add_rect 0 0 10 10] Engine.new.push_undo).undo.2.redo.2.scene.export =
      (applyMuts [Mutation.add_rect 0 0 10 10] Engine.new.push_undo).scene.export) :=
  c3_undo_redo Engine.new [Mutation.add_rect 0 0 10 10] (by decide)

/-- `find?` by id commutes with mapping an id-preserving function. -/
theorem find?_map_pred (l : List Node) (g : Node → Node) (hg : ∀ n, (g n).id = n.id) (j : Nat) :
    (l.map g).find? (fun n => n.id == j) = (l.find? (fun n => n.id == j)).map g := by
  induction l with
  | nil => rfl
  | cons n ns ih =>
    simp only [List.map_cons]
    cases h : (n.id == j) with
    | true =>
      have h1 : List.find? (fun m => m.id == j) (g n :: ns.map g) = some (g n) :=
        List.find?_cons_of_pos _ (by rw [hg]; exact h)
      have h2 : List.find? (fun m => m.id == j) (n :: ns) = some n :=
        List.find?_cons_of_pos _ h
      rw [h1, h2]
      rfl
    | false =>
      have h1 : List.find? (fun m => m.id == j) (g n :: ns.map g) =
          List.find? (fun m => m.id == j) (ns.map g) :=
        List.find?_cons_of_neg _ (by rw [hg]; simp [h])
      have h2 : List.find? (fun m => m.id == j) (n :: ns) =
          List.find? (fun m => m.id == j) ns :=
        List.find?_cons_of_neg _ (by simp [h])
      rw [h1, h2]
      exact ih

/-- The node a lookup returns carries the looked-up id. -/
theorem get_node_id {s : Scene} {j : Nat} {n : Node} (h : s.get_node j = some n) :
    n.id = j := by
  have := List.find?_some h
  simpa using this

/-- Lookup after `updateNode`, described pointwise. -/
theorem get_node_updateNode (s : Scene) (id : Nat) (f : Node → Node)
    (hf : ∀ n, (f n).id = n.id) (j : Nat) :
    (s.updateNode id f).get_node j =
      (s.get_node j).map (fun n => if (n.id == id) = true then f n else n) := by
  unfold Scene.updateNode Scene.get_node
  exact find?_map_pred s.nodes _
    (fun n => by by_cases hh : (n.id == id) = true <;> simp [hh, hf]) j

/-- Lookup of a different id is unaffected by `updateNode`. -/
theorem get_node_updateNode_ne {s : Scene} {id : Nat} {f : Node → Node}
    (hf : ∀ n, (f n).id = n.id) {j : Nat} (hne : j ≠ id) :
    (s.updateNode id f).get_node j = s.get_node j := by
  rw [get_node_updateNode s id f hf j]
  cases hg : s.get_node j with
  | none => rfl
  | some n =>
    have hid : n.id = j := get_node_id hg
    simp only [Option.map_some']
    rw [if_neg (by simp [hid, hne])]

/-- Lookup of the modified id after `updateNode`. -/
theorem get_node_updateNode_self {s : Scene} {id : Nat} {f : Node → Node}
    (hf : ∀ n, (f n).id = n.id) :
    (s.updateNode id f).get_node id = (s.get_node id).map f := by
  rw [get_node_updateNode s id f hf id]
  cases hg : s.get_node id with
  | none => rfl
  | some n =>
    have hid : n.id = id := get_node_id hg
    simp [hid]

/-- The flex placement loop never touches a node outside its child
list. -/
theorem flexLoop_not_mem (is_row : Bool) (cx cy ac : ℚ) (al : Align) (ug : ℚ) :
    ∀ (cs : List (Nat × ℚ × ℚ)) (s : Scene) (mp : ℚ) (j : Nat),
    (∀ c ∈ cs, c.1 ≠ j) →
    (flexLoop is_row cx cy ac al ug s cs mp).get_node j = s.get_node j := by
  intro cs
  induction cs with
  | nil => intro s mp j _; rfl
  | cons c rest ih =>
    rcases c with ⟨cid, cw, ch⟩
    intro s mp j hj
    simp only [flexLoop]
    rw [ih _ _ j (fun c hc => hj c (List.mem_cons_of_mem _ hc))]
    exact get_node_updateNode_ne
      (fun n => by by_cases hal : (al == Align.Stretch) = true <;> cases is_row <;> simp [hal])
      (fun hcon => (hj (cid, cw, ch) (List.mem_cons_self _ _)) hcon.symm)

/-- Main-axis placement of the flex loop: starting the cursor at `mp`,
the j-th visible child's main coordinate lands at the axis origin plus
`mp`, plus the main sizes of the children before it, plus j gaps. -/
theorem flexLoop_get (is_row : Bool) (cx cy ac : ℚ) (al : Align) (ug : ℚ) :
    ∀ (cs : List (Nat × ℚ × ℚ)) (s : Scene) (mp : ℚ) (j : Nat) (h : j < cs.length),
    ((cs.map (fun c => c.1)).Nodup) →
    ((flexLoop is_row cx cy ac al ug s cs mp).get_node (cs.get ⟨j, h⟩).1).map
        (fun nd => if is_row then nd.x else nd.y) =
      (s.get_node (cs.get ⟨j, h⟩).1).map
        (fun _ => (if is_row then cx else cy) + mp +
          ((cs.take j).map (fun c => if is_row then c.2.1 else c.2.2)).sum + (j : ℚ) * ug) := by
  intro cs
  induction cs with
  | nil => intro s mp j h; exact absurd h (Nat.not_lt_zero j)
  | cons c rest ih =>
    rcases c with ⟨cid, cw, ch⟩
    intro s mp j h hnodup
    have hn2 : (cid :: rest.map (fun c => c.1)).Nodup := by
      have hcopy := hnodup
      simp only [List.map_cons] at hcopy
      exact hcopy
    have hnd := List.nodup_cons.mp hn2
    cases j with
    | zero =>
      simp only [flexLoop, List.get]
      rw [flexLoop_not_mem is_row cx cy ac al ug rest _ _ cid
        (fun c hc hcon => hnd.1 (hcon ▸ List.mem_map_of_mem (fun c => c.1) hc))]
      rw [get_node_updateNode_self
        (fun n => by by_cases hal : (al == Align.Stretch) = true <;> cases is_row <;> simp [hal])]
      cases hg : s.get_node cid with
      | none => rfl
      | some n =>
        simp only [Option.map_some']
        congr 1
        cases is_row <;> by_cases hal : (al == Align.Stretch) = true <;> simp [hal]
    | succ j =>
      have hj : j < rest.length := Nat.lt_of_succ_lt_succ h
      have hget : ((cid, cw, ch) :: rest).get ⟨j + 1, h⟩ = rest.get ⟨j, hj⟩ := rfl
      rw [hget]
      simp only [flexLoop]
      have hrest : rest.isEmpty = false := by
        cases rest with
        | nil => exact absurd hj (Nat.not_lt_zero j)
        | cons a b => rfl
      rw [ih _ _ j hj hnd.2]
      have htarget : (rest.get ⟨j, hj⟩).1 ≠ cid := by
        intro hcon
        exact hnd.1 (hcon ▸ List.mem_map_of_mem (fun c => c.1) (rest.get_mem j hj))
      rw [get_node_updateNode_ne
        (fun n => by by_cases hal : (al == Align.Stretch) = true <;> cases is_row <;> simp [hal])
        htarget]
      cases hg : s.get_node (rest.get ⟨j, hj⟩).1 with
      | none => rfl
      | some n =>
        simp only [Option.map_some', hrest]
        congr 1
        simp only [Bool.false_eq_true, if_false, List.take_succ_cons, List.map_cons,
          List.sum_cons, Nat.cast_succ]
        ring

/-- Every entry of `visibleSizes` records a stored, visible child with
its current width and height. -/
theorem visibleSizes_present (s : Scene) (children : List Nat) :
    ∀ c ∈ visibleSizes s children, ∃ nd, s.get_node c.1 = some nd ∧
      nd.visible = true ∧ nd.width = c.2.1 ∧ nd.height = c.2.2 := by
  intro c hc
  unfold visibleSizes at hc
  rcases List.mem_filterMap.mp hc with ⟨cid, _, hmap⟩
  cases hg : s.get_node cid with
  | none =>
    simp only [hg] at hmap
    exact Option.noConfusion hmap
  | some child =>
    simp only [hg] at hmap
    by_cases hv : child.visible = true
    · rw [if_pos hv] at hmap
      rcases Option.some.inj hmap with rfl
      exact ⟨child, hg, hv, rfl, rfl⟩
    · rw [if_neg hv] at hmap
      simp at hmap

/-- C5: flex space-between.  First, the claim's concrete instance: a
row flex container of width 300 (content width 300: no padding) at the
origin with justify space-between, a configured gap of 7 that is
replaced by the distributed gap, and three visible children of width
50 (ids 2, 3, 4) — one layout pass puts their main-axis offsets from
the content-box left edge at 0, 125 and 250.  Second, the general law:
for more than one visible child, the starting offset is 0 and child j
sits at the sum of the preceding children's main sizes plus j times
(available main size − sum of child main sizes)/(n − 1). -/
theorem c5_space_between :
    (((compute_layouts flexFixtureScene).get_node 2).map (fun nd => nd.x) = some 0 ∧
     ((compute_layouts flexFixtureScene).get_node 3).map (fun nd => nd.x) = some 125 ∧
     ((compute_layouts flexFixtureScene).get_node 4).map (fun nd => nd.x) = some 250) ∧
    (∀ (s : Scene) (layout : Layout) (px py pw ph : ℚ) (children : List Nat),
      layout.justify_content = Justify.SpaceBetween →
      layout.direction = FlexDirection.Row →
      ((visibleSizes s children).map (fun c => c.1)).Nodup →
      1 < (visibleSizes s children).length →
      ∀ (j : Nat) (h : j < (visibleSizes s children).length),
        ((compute_flex s layout px py pw ph children).get_node
            ((visibleSizes s children).get ⟨j, h⟩).1).map (fun nd => nd.x) =
          some (px + layout.padding_left +
            (((visibleSizes s children).take j).map (fun c => c.2.1)).sum +
            (j : ℚ) * ((pw - layout.padding_left - layout.padding_right -
              ((visibleSizes s children).map (fun c => c.2.1)).sum) /
              (((visibleSizes s children).length : ℚ) - 1)))) := by
  constructor
  · refine ⟨?_, ?_, ?_⟩ <;> with_unfolding_all rfl
  · intro s layout px py pw ph children hjust hdir hnodup hlen j h
    have hq : (1 : ℚ) < ((visibleSizes s children).length : ℚ) := by exact_mod_cast hlen
    have hne : (visibleSizes s children).isEmpty = false := by
      cases hvs : visibleSizes s children with
      | nil => rw [hvs] at hlen; simp at hlen
      | cons a b => rfl
    simp only [compute_flex, hjust, hdir, hne, beq_self_eq_true, Bool.false_eq_true, if_false,
      if_true, if_pos hq]
    have hstep := flexLoop_get true (px + layout.padding_left) (py + layout.padding_top)
      (ph - layout.padding_top - layout.padding_bottom) layout.align_items
      ((pw - layout.padding_left - layout.padding_right -
        ((visibleSizes s children).map (fun c => c.2.1)).sum) /
        (((visibleSizes s children).length : ℚ) - 1))
      (visibleSizes s children) s 0 j h hnodup
    simp only [if_true] at hstep
    obtain ⟨nd, hnd, _⟩ := visibleSizes_present s children _
      (List.get_mem (visibleSizes s children) j h)
    rw [hnd] at hstep
    rw [hstep]
    simp only [Option.map_some']
    congr 1
    ring

/-- C5 (witness): the general space-between law applied to the second
visible child of the concrete fixture, yielding the claimed offset
0 + 50 + 1 * (300 − 150)/2 = 125. -/
theorem c5_space_between_witness :
    ((compute_flex flexFixtureScene flexFixtureLayout 0 0 300 100 [2, 3, 4]).get_node 3).map
      (fun nd => nd.x) = some 125 := by
  have h := c5_space_between.2 flexFixtureScene flexFixtureLayout 0 0 300 100 [2, 3, 4]
    rfl rfl (by with_unfolding_all decide) (by with_unfolding_all decide)
    1 (by with_unfolding_all decide)
  with_unfolding_all exact h

/-- C10 (witness): duplicating the single rectangle of
`singleRectEngine` returns the fresh id 2 and appends the offset copy
to the root list, leaving node 1 unchanged. -/
theorem c10_witness :
    singleRectEngine.duplicate_node 1 =
      (2,
       { singleRectEngine with scene :=
          { singleRectEngine.scene with
              next_id := 3,
              root_children := [1, 2],
              nodes := [{ demoRect with id := 1 },
                        { demoRect with id := 2, x := 20, y := 20 }] } }) := by
  have h := c10_duplicate_shallow singleRectEngine 1 { demoRect with id := 1 }
    (by with_unfolding_all rfl) (by decide)
  rw [h]
  with_unfolding_all rfl

/-- The root id of a built tree is the id it was built from. -/
theorem buildTreeF_idOf (fuel : Nat) (s : Scene) (i : Nat) :
    (buildTreeF fuel s i).idOf = i := by
  cases fuel <;> rfl

/-- The root id of a tree heads its flattening. -/
theorem idOf_mem_flatten (t : NTree) : t.idOf ∈ t.flatten := by
  cases t with
  | mk i ks => simp [NTree.idOf]

/-- A forest member's flattening is no longer than the forest's. -/
theorem flatten_le_flattenL : ∀ (ts : List NTree), ∀ t ∈ ts,
    t.flatten.length ≤ (NTree.flattenL ts).length := by
  intro ts
  induction ts with
  | nil => intro t ht; exact absurd ht (List.not_mem_nil t)
  | cons a ts ih =>
    intro t ht
    rcases List.mem_cons.mp ht with rfl | h
    · simp only [flattenL_cons, List.length_append]
      omega
    · have := ih t h
      simp only [flattenL_cons, List.length_append]
      omega

/-- Forest flattening membership, tree by tree. -/
theorem mem_flattenL {d : Nat} : ∀ {ts : List NTree},
    (d ∈ NTree.flattenL ts ↔ ∃ t ∈ ts, d ∈ t.flatten) := by
  intro ts
  induction ts with
  | nil => simp
  | cons a ts ih => simp [List.mem_append, ih]

/-- Successive not-membership filters fuse over the appended deletion
lists. -/
theorem filter_not_mem_append (l A B : List Nat) :
    (l.filter (fun c => decide (c ∉ A))).filter (fun c => decide (c ∉ B)) =
      l.filter (fun c => decide (c ∉ A ++ B)) := by
  rw [List.filter_filter]
  apply List.filter_congr
  intro a _
  by_cases hA : a ∈ A <;> by_cases hB : a ∈ B <;> simp [hA, hB]

/-- A bne filter after a not-membership filter fuses to not-membership
of the consed deletion list. -/
theorem filter_not_mem_bne (l : List Nat) (L : List Nat) (i : Nat) :
    (l.filter (fun c => decide (c ∉ L))).filter (fun c => c != i) =
      l.filter (fun c => decide (c ∉ i :: L)) := by
  rw [List.filter_filter]
  apply List.filter_congr
  intro a _
  by_cases hi : a = i <;> by_cases hL : a ∈ L <;> simp [hi, hL]

/-- Node-list version of `filter_not_mem_append`, filtering on ids. -/
theorem filter_id_not_mem_append (l : List Node) (A B : List Nat) :
    (l.filter (fun n => decide (n.id ∉ A))).filter (fun n => decide (n.id ∉ B)) =
      l.filter (fun n => decide (n.id ∉ A ++ B)) := by
  rw [List.filter_filter]
  apply List.filter_congr
  intro a _
  by_cases hA : a.id ∈ A <;> by_cases hB : a.id ∈ B <;> simp [hA, hB]

/-- A not-membership id filter after a bne id filter fuses to
not-membership of the consed deletion list. -/
theorem filter_id_bne_not_mem (l : List Node) (i : Nat) (L : List Nat) :
    (l.filter (fun n => n.id != i)).filter (fun n => decide (n.id ∉ L)) =
      l.filter (fun n => decide (n.id ∉ i :: L)) := by
  rw [List.filter_filter]
  apply List.filter_congr
  intro a _
  by_cases hi : a.id = i <;> by_cases hL : a.id ∈ L <;> simp [hi, hL]

/-- An id lookup passes unchanged through a filter its hit satisfies. -/
theorem find?_id_filter (l : List Node) (q : Nat → Bool) (j : Nat) (hj : q j = true) :
    (l.filter (fun n => q n.id)).find? (fun n => n.id == j) =
      l.find? (fun n => n.id == j) :=
  find?_filter l _ _ (fun n _ hp => by
    have h : n.id = j := by simpa using hp
    rw [h]; exact hj)

mutual

/-- A spanning tree stays spanning when lookups of its member ids are
unchanged. -/
theorem spans_stable : ∀ (t : NTree) (s s' : Scene),
    (∀ j ∈ t.flatten, s'.get_node j = s.get_node j) → Spans s t → Spans s' t
  | NTree.mk i ks, s, s', hag, hsp => by
    obtain ⟨⟨n, hn, hch⟩, hkids⟩ := hsp
    refine ⟨⟨n, ?_, hch⟩, ?_⟩
    · rw [hag i (by simp [NTree.idOf])]; exact hn
    · exact spansL_stable ks i s s'
        (fun j hj => hag j (by simp [hj])) hkids

/-- Forest version of `spans_stable`. -/
theorem spansL_stable : ∀ (ks : List NTree) (p : Nat) (s s' : Scene),
    (∀ j ∈ NTree.flattenL ks, s'.get_node j = s.get_node j) →
    SpansL s p ks → SpansL s' p ks
  | [], _, _, _, _, _ => trivial
  | t :: ts, p, s, s', hag, hsp => by
    obtain ⟨⟨hsp1, n, hn, hpar⟩, hrest⟩ := hsp
    refine ⟨⟨spans_stable t s s'
        (fun j hj => hag j (by simp only [flattenL_cons, List.mem_append]; exact Or.inl hj))
        hsp1, n, ?_, hpar⟩, ?_⟩
    · rw [hag t.idOf (by
        simp only [flattenL_cons, List.mem_append]
        exact Or.inl (idOf_mem_flatten t))]
      exact hn
    · exact spansL_stable ts p s s'
        (fun j hj => hag j (by simp only [flattenL_cons, List.mem_append]; exact Or.inr hj))
        hrest

end

mutual

/-- Every member of a spanning tree's flattening is a stored id. -/
theorem spans_mem_stored : ∀ (t : NTree) (s : Scene), Spans s t →
    ∀ j ∈ t.flatten, ∃ nj, s.get_node j = some nj
  | NTree.mk i ks, s, hsp, j, hj => by
    obtain ⟨⟨n, hn, _⟩, hkids⟩ := hsp
    rcases List.mem_cons.mp (by simpa using hj) with rfl | h
    · exact ⟨n, hn⟩
    · exact spansL_mem_stored ks s i hkids j h

/-- Forest version of `spans_mem_stored`. -/
theorem spansL_mem_stored : ∀ (ks : List NTree) (s : Scene) (p : Nat),
    SpansL s p ks → ∀ j ∈ NTree.flattenL ks, ∃ nj, s.get_node j = some nj
  | [], _, _, _, j, hj => by simp at hj
  | t :: ts, s, p, hsp, j, hj => by
    obtain ⟨⟨hsp1, _⟩, hrest⟩ := hsp
    rcases List.mem_append.mp (by simpa using hj) with h | h
    · exact spans_mem_stored t s hsp1 j h
    · exact spansL_mem_stored ts s p hrest j h

end

/-- With pairwise distinct ids, two stored entries with equal ids are
the same entry. -/
theorem stored_unique {s : Scene} (hids : (s.nodes.map Node.id).Nodup)
    {n n' : Node} (hn : n ∈ s.nodes) (hn' : n' ∈ s.nodes) (h : n.id = n'.id) :
    n = n' := by
  have h1 := get_node_mem_nodup hids hn
  have h2 := get_node_mem_nodup hids hn'
  rw [h] at h1
  rw [h1] at h2
  exact Option.some.inj h2

/-- The unique-container invariant makes every stored child list
duplicate-free. -/
theorem children_nodup {s : Scene}
    (hcr : ∀ m ∈ s.nodes, ∀ c ∈ m.children, ∃ m2 ∈ s.nodes, m2.id = c)
    (hone : ∀ m ∈ s.nodes, s.root_children.count m.id + childCount s m.id = 1)
    {q : Node} (hq : q ∈ s.nodes) : q.children.Nodup := by
  rw [List.nodup_iff_count_le_one]
  intro c
  by_cases hc : c ∈ q.children
  · obtain ⟨m2, hm2, hm2id⟩ := hcr q hq c hc
    have h1 := hone m2 hm2
    have h2 : q.children.count c ≤ childCount s c :=
      show q.children.count c ≤ (s.nodes.map (fun n => n.children.count c)).sum from
        one_entry_le hq (fun n => n.children.count c)
    rw [hm2id] at h1
    omega
  · rw [List.count_eq_zero_of_not_mem hc]
    omega

/-- The unique-container invariant pins a stored child's parent pointer
to the node holding it. -/
theorem parent_of_child {s : Scene} (_hids : (s.nodes.map Node.id).Nodup)
    (hone : ∀ m ∈ s.nodes, s.root_children.count m.id + childCount s m.id = 1)
    (hpc : ∀ m ∈ s.nodes,
      match m.parent with
      | none => m.id ∈ s.root_children
      | some p => ∃ q ∈ s.nodes, q.id = p ∧ m.id ∈ q.children)
    {nj : Node} (hnj : nj ∈ s.nodes) {c : Nat} (hc : c ∈ nj.children)
    {nc : Node} (hnc : nc ∈ s.nodes) (hncid : nc.id = c) :
    nc.parent = some nj.id := by
  have h1 := hone nc hnc
  rw [hncid] at h1
  have hp := hpc nc hnc
  cases hpar : nc.parent with
  | none =>
    exfalso
    rw [hpar] at hp
    rw [hncid] at hp
    have h0 : s.root_children.count c ≠ 0 := fun h => (List.count_eq_zero.mp h) hp
    have hcnt : nj.children.count c ≠ 0 := fun h => (List.count_eq_zero.mp h) hc
    have hle : nj.children.count c ≤ childCount s c :=
      show nj.children.count c ≤ (s.nodes.map (fun n => n.children.count c)).sum from
        one_entry_le hnj (fun n => n.children.count c)
    omega
  | some p =>
    rw [hpar] at hp
    obtain ⟨q, hq, hqid, hmem⟩ := hp
    by_cases hqj : q.id = nj.id
    · rw [← hqid, hqj]
    · exfalso
      have h2 : q.children.count c + nj.children.count c ≤ childCount s c :=
        show q.children.count c + nj.children.count c ≤
            (s.nodes.map (fun n => n.children.count c)).sum from
          two_entries_le (fun n => n.children.count c) hq hnj hqj
      have hq1 : q.children.count c ≠ 0 :=
        fun h => (List.count_eq_zero.mp h) (hncid ▸ hmem)
      have hn1 : nj.children.count c ≠ 0 := fun h => (List.count_eq_zero.mp h) hc
      omega

/-- Ancestor chains compose. -/
theorem reaches_trans {s : Scene} {a b c : Nat} (h1 : Reaches s a b) :
    Reaches s b c → Reaches s a c := by
  induction h1 with
  | refl d => exact fun h2 => h2
  | step hn hp h ih => exact fun h2 => Reaches.step hn hp (ih h2)

/-- An acyclicity rank is monotone along ancestor chains. -/
theorem reaches_rank {s : Scene}
    (hpc : ∀ m ∈ s.nodes,
      match m.parent with
      | none => m.id ∈ s.root_children
      | some p => ∃ q ∈ s.nodes, q.id = p ∧ m.id ∈ q.children)
    (rank : Nat → Nat)
    (hrk : ∀ m ∈ s.nodes, ∀ c ∈ m.children, rank c < rank m.id)
    {d a : Nat} (h : Reaches s d a) : d = a ∨ rank d < rank a := by
  induction h with
  | refl d => exact Or.inl rfl
  | @step d p a' n hn hp h ih =>
    have hmem : n ∈ s.nodes := (get_node_some_mem hn).1
    have hid : n.id = d := (get_node_some_mem hn).2
    have h6 := hpc n hmem
    rw [hp] at h6
    obtain ⟨q, hq, hqid, hin⟩ := h6
    have hdp : rank d < rank p := by
      have hstep := hrk q hq n.id hin
      rw [hid, hqid] at hstep
      exact hstep
    rcases ih with rfl | hlt
    · exact Or.inr hdp
    · exact Or.inr (lt_trans hdp hlt)

/-- Two ancestors of one node are comparable: parent pointers are
functional, so ancestor chains are linear. -/
theorem reaches_comparable {s : Scene} {d a b : Nat} (h1 : Reaches s d a) :
    Reaches s d b → Reaches s a b ∨ Reaches s b a := by
  induction h1 with
  | refl d => exact fun h2 => Or.inl h2
  | @step d p a' n hn hp h ih =>
    intro h2
    cases h2 with
    | refl => exact Or.inr (Reaches.step hn hp h)
    | step hn2 hp2 h2' =>
      rename_i p2 n2
      have hnn : n2 = n := by rw [hn] at hn2; exact (Option.some.inj hn2).symm
      subst hnn
      have hpp : p2 = p := by rw [hp] at hp2; exact (Option.some.inj hp2).symm
      rw [hpp] at h2'
      exact ih h2'

/-- On an invariant-respecting scene, the built descendant tree spans
the scene, its members are stored non-root-reachable ids of smaller
rank that reach the root through parent pointers, and its flattening
is duplicate-free. -/
theorem buildTree_all {s : Scene} (hids : (s.nodes.map Node.id).Nodup)
    (hcr : ∀ m ∈ s.nodes, ∀ c ∈ m.children, ∃ m2 ∈ s.nodes, m2.id = c)
    (hone : ∀ m ∈ s.nodes, s.root_children.count m.id + childCount s m.id = 1)
    (hpc : ∀ m ∈ s.nodes,
      match m.parent with
      | none => m.id ∈ s.root_children
      | some p => ∃ q ∈ s.nodes, q.id = p ∧ m.id ∈ q.children)
    (rank : Nat → Nat)
    (hrk : ∀ m ∈ s.nodes, ∀ c ∈ m.children, rank c < rank m.id) :
    ∀ (R : Nat) (j : Nat) (nj : Node), rank j < R → s.get_node j = some nj →
    ∀ (fuel : Nat), rank j + 1 ≤ fuel →
      Spans s (buildTreeF fuel s j) ∧
      (∀ d ∈ (buildTreeF fuel s j).flatten,
        (∃ nd, s.get_node d = some nd) ∧
        (d = j ∨ (rank d < rank j ∧ ∃ q ∈ s.nodes, d ∈ q.children))) ∧
      (∀ d ∈ (buildTreeF fuel s j).flatten, Reaches s d j) ∧
      (buildTreeF fuel s j).flatten.Nodup := by
  intro R
  induction R with
  | zero => intro j nj hR; exact absurd hR (Nat.not_lt_zero _)
  | succ R ih =>
    intro j nj hR hj fuel hfuel
    cases fuel with
    | zero => exact absurd hfuel (by omega)
    | succ f =>
      have hjmem : nj ∈ s.nodes := (get_node_some_mem hj).1
      have hjid : nj.id = j := (get_node_some_mem hj).2
      have hbt : buildTreeF (f + 1) s j = NTree.mk j (nj.children.map (buildTreeF f s)) := by
        simp [buildTreeF, hj]
      rw [hbt]
      have hkid : ∀ c ∈ nj.children, ∃ nc,
          s.get_node c = some nc ∧ nc.parent = some j ∧ rank c < rank j ∧
          Spans s (buildTreeF f s c) ∧
          (∀ d ∈ (buildTreeF f s c).flatten, (∃ nd, s.get_node d = some nd) ∧
            (d = c ∨ (rank d < rank c ∧ ∃ q ∈ s.nodes, d ∈ q.children))) ∧
          (∀ d ∈ (buildTreeF f s c).flatten, Reaches s d c) ∧
          (buildTreeF f s c).flatten.Nodup := by
        intro c hc
        obtain ⟨m2, hm2, hm2id⟩ := hcr nj hjmem c hc
        have hgc : s.get_node c = some m2 := by
          have h0 := get_node_mem_nodup hids hm2
          rw [hm2id] at h0; exact h0
        have hrc : rank c < rank j := by
          have h0 := hrk nj hjmem c hc; rw [hjid] at h0; exact h0
        have hparc : m2.parent = some j := by
          have h0 := parent_of_child hids hone hpc hjmem hc hm2 hm2id
          rw [hjid] at h0; exact h0
        have hRc : rank c < R := by omega
        have hfc : rank c + 1 ≤ f := by omega
        obtain ⟨hsp, hmem2, hreach, hnd⟩ := ih c m2 hRc hgc f hfc
        exact ⟨m2, hgc, hparc, hrc, hsp, hmem2, hreach, hnd⟩
      have hmemL : ∀ d, d ∈ NTree.flattenL (nj.children.map (buildTreeF f s)) ↔
          ∃ c ∈ nj.children, d ∈ (buildTreeF f s c).flatten := by
        intro d
        rw [mem_flattenL]
        constructor
        · rintro ⟨t, ht, hd⟩
          obtain ⟨c, hc, rfl⟩ := List.mem_map.mp ht
          exact ⟨c, hc, hd⟩
        · rintro ⟨c, hc, hd⟩
          exact ⟨buildTreeF f s c, List.mem_map_of_mem _ hc, hd⟩
      have hforest : ∀ d ∈ NTree.flattenL (nj.children.map (buildTreeF f s)),
          (∃ nd, s.get_node d = some nd) ∧ rank d < rank j ∧
          (∃ q ∈ s.nodes, d ∈ q.children) ∧ Reaches s d j := by
        intro d hd
        obtain ⟨c, hc, hdc⟩ := (hmemL d).mp hd
        obtain ⟨nc, hgc, hparc, hrc, _, hmem2, hreach, _⟩ := hkid c hc
        obtain ⟨hstored, hcase⟩ := hmem2 d hdc
        have hreachj : Reaches s d j :=
          reaches_trans (hreach d hdc) (Reaches.step hgc hparc (Reaches.refl j))
        rcases hcase with rfl | ⟨hlt, hq⟩
        · exact ⟨hstored, hrc, ⟨nj, hjmem, hc⟩, hreachj⟩
        · exact ⟨hstored, lt_trans hlt hrc, hq, hreachj⟩
      refine ⟨?_, ?_, ?_, ?_⟩
      · -- Spans
        refine ⟨⟨nj, hj, ?_⟩, ?_⟩
        · have h0 : (nj.children.map (buildTreeF f s)).map NTree.idOf = nj.children := by
            rw [List.map_map]
            have h1 : nj.children.map (NTree.idOf ∘ buildTreeF f s) =
                nj.children.map (fun c => c) :=
              List.map_congr_left (fun c _ => buildTreeF_idOf f s c)
            rw [h1, List.map_id']
          exact h0.symm
        · have hSL : ∀ (L : List Nat), (∀ c ∈ L, c ∈ nj.children) →
              SpansL s j (L.map (buildTreeF f s)) := by
            intro L
            induction L with
            | nil => intro _; trivial
            | cons c L' ihL =>
              intro hsub
              have hc := hsub c (List.mem_cons_self c L')
              obtain ⟨nc, hgc, hparc, _, hsp, _, _, _⟩ := hkid c hc
              exact ⟨⟨hsp, ⟨nc, by rw [buildTreeF_idOf]; exact hgc, hparc⟩⟩,
                ihL (fun x hx => hsub x (List.mem_cons_of_mem c hx))⟩
          exact hSL nj.children (fun c hc => hc)
      · -- member facts
        intro d hd
        rw [flatten_mk, List.mem_cons] at hd
        rcases hd with rfl | hd
        · exact ⟨⟨nj, hj⟩, Or.inl rfl⟩
        · obtain ⟨hst, hlt, hq, _⟩ := hforest d hd
          exact ⟨hst, Or.inr ⟨hlt, hq⟩⟩
      · -- reaches
        intro d hd
        rw [flatten_mk, List.mem_cons] at hd
        rcases hd with rfl | hd
        · exact Reaches.refl d
        · exact (hforest d hd).2.2.2
      · -- nodup
        rw [flatten_mk]
        refine List.nodup_cons.mpr ⟨?_, ?_⟩
        · intro hmem
          exact absurd ((hforest j hmem).2.1) (lt_irrefl _)
        · have hKnodup : nj.children.Nodup := children_nodup hcr hone hjmem
          have key : ∀ c1 ∈ nj.children, ∀ c2 ∈ nj.children, c1 ≠ c2 →
              Reaches s c1 c2 → False := by
            intro c1 hc1 c2 hc2 hne hRc
            obtain ⟨nc1, hg1, hpar1, hr1, _⟩ := hkid c1 hc1
            obtain ⟨nc2, hg2, hpar2, hr2, _⟩ := hkid c2 hc2
            cases hRc with
            | refl => exact hne rfl
            | step hn' hp' h' =>
              rename_i p' n'
              have hn'' : n' = nc1 := by
                rw [hg1] at hn'; exact (Option.some.inj hn').symm
              subst hn''
              have hp'' : p' = j := by
                rw [hpar1] at hp'; exact (Option.some.inj hp').symm
              rw [hp''] at h'
              rcases reaches_rank hpc rank hrk h' with heq | hlt
              · rw [heq] at hr2; exact lt_irrefl _ hr2
              · omega
          have hdisj : ∀ c1 ∈ nj.children, ∀ c2 ∈ nj.children, c1 ≠ c2 →
              ∀ d ∈ (buildTreeF f s c1).flatten, d ∉ (buildTreeF f s c2).flatten := by
            intro c1 hc1 c2 hc2 hne d hd1 hd2
            obtain ⟨nc1, hg1, hpar1, hr1, _, _, hreach1, _⟩ := hkid c1 hc1
            obtain ⟨nc2, hg2, hpar2, hr2, _, _, hreach2, _⟩ := hkid c2 hc2
            rcases reaches_comparable (hreach1 d hd1) (hreach2 d hd2) with h12 | h21
            · exact key c1 hc1 c2 hc2 hne h12
            · exact key c2 hc2 c1 hc1 (Ne.symm hne) h21
          have hLnodup : ∀ (L : List Nat), L.Nodup → (∀ c ∈ L, c ∈ nj.children) →
              (NTree.flattenL (L.map (buildTreeF f s))).Nodup := by
            intro L
            induction L with
            | nil => intro _ _; simp
            | cons c L' ihL =>
              intro hLnd hsub
              have hc := hsub c (List.mem_cons_self c L')
              obtain ⟨hcL, hL'⟩ := List.nodup_cons.mp hLnd
              simp only [List.map_cons, flattenL_cons]
              rw [List.nodup_append]
              refine ⟨?_, ihL hL' (fun x hx => hsub x (List.mem_cons_of_mem c hx)), ?_⟩
              · obtain ⟨_, _, _, _, _, _, _, hnd⟩ := hkid c hc
                exact hnd
              · intro d hd1 hd2
                obtain ⟨t, ht, hd2'⟩ := mem_flattenL.mp hd2
                obtain ⟨c2, hc2L', rfl⟩ := List.mem_map.mp ht
                exact hdisj c hc c2 (hsub c2 (List.mem_cons_of_mem c hc2L'))
                  (fun he => hcL (he ▸ hc2L')) d hd1 hd2'
          exact hLnodup nj.children hKnodup (fun c hc => hc)

/-- Folding subtree removal over a forest of already-detached spanning
trees deletes exactly the forest's ids from the node map and the
selection, touching nothing else.  `hmain` is the single-tree removal
equation at the loop's fuel. -/
theorem removeF_fold (f : Nat)
    (hmain : ∀ (t : NTree) (s : Scene) (rn : Node),
      t.flatten.length + 1 ≤ f →
      s.get_node t.idOf = some rn →
      Spans s t →
      t.flatten.Nodup →
      (∀ d ∈ t.flatten, d ≠ t.idOf → d ∉ s.root_children) →
      (∀ p, rn.parent = some p → p ∉ t.flatten) →
      (s.nodes.map Node.id).Nodup →
      Scene.removeNodeF f s t.idOf =
        { nodes := (s.nodes.filter (fun m => decide (m.id ∉ t.flatten))).map
            (fun m => if rn.parent = some m.id then { m with children := m.children.filter (fun c => c != t.idOf) } else m),
          root_children := s.root_children.filter (fun c => c != t.idOf),
          next_id := s.next_id,
          selection := s.selection.filter (fun c => decide (c ∉ t.flatten)) }) :
    ∀ (pending : List NTree) (cur : Scene) (i0 : Nat),
      (∀ t' ∈ pending, t'.flatten.length + 1 ≤ f) →
      SpansL cur i0 pending →
      (NTree.flattenL pending).Nodup →
      (∀ d ∈ NTree.flattenL pending, d ∉ cur.root_children) →
      (cur.nodes.map Node.id).Nodup →
      (∀ m ∈ cur.nodes, m.id ≠ i0) →
      pending.foldl (fun acc t' => Scene.removeNodeF f acc t'.idOf) cur =
        { nodes := cur.nodes.filter (fun m => decide (m.id ∉ NTree.flattenL pending)),
          root_children := cur.root_children,
          next_id := cur.next_id,
          selection := cur.selection.filter (fun c => decide (c ∉ NTree.flattenL pending)) } := by
  intro pending
  induction pending with
  | nil =>
    intro cur i0 _ _ _ _ _ _
    have h1 : cur.nodes.filter (fun m => decide (m.id ∉ NTree.flattenL [])) = cur.nodes := by
      apply List.filter_eq_self.mpr; intro a _; simp
    have h2 : cur.selection.filter (fun c => decide (c ∉ NTree.flattenL [])) = cur.selection := by
      apply List.filter_eq_self.mpr; intro a _; simp
    rw [List.foldl_nil, h1, h2]
  | cons t' ts' ihp =>
    intro cur i0 hfuelL hspanL hnodupL hrootL hidsL hno
    obtain ⟨⟨hsp1, n', hget', hpar'⟩, hrest⟩ := hspanL
    obtain ⟨hnd1, hnd2, hdisj⟩ :=
      List.nodup_append.mp (by simpa only [flattenL_cons] using hnodupL)
    have hstored := spans_mem_stored t' cur hsp1
    have hi0 : ∀ j ∈ t'.flatten, j ≠ i0 := by
      intro j hj he
      obtain ⟨nj, hnj⟩ := hstored j hj
      exact hno nj (get_node_some_mem hnj).1 (by rw [(get_node_some_mem hnj).2, he])
    have hcall := hmain t' cur n' (hfuelL t' (List.mem_cons_self t' ts')) hget' hsp1 hnd1
      (fun d hd _ => hrootL d (by simp only [flattenL_cons, List.mem_append]; exact Or.inl hd))
      (fun p hp hmem => by
        rw [hpar'] at hp
        exact hi0 p hmem (Option.some.inj hp).symm)
      hidsL
    have hroot_eq : cur.root_children.filter (fun c => c != t'.idOf) = cur.root_children := by
      apply List.filter_eq_self.mpr
      intro a ha
      have hne : a ≠ t'.idOf := by
        intro he
        exact hrootL t'.idOf
          (by simp only [flattenL_cons, List.mem_append]; exact Or.inl (idOf_mem_flatten t'))
          (he ▸ ha)
      simpa using hne
    have hmap_eq : (cur.nodes.filter (fun m => decide (m.id ∉ t'.flatten))).map
        (fun m => if n'.parent = some m.id then { m with children := m.children.filter (fun c => c != t'.idOf) } else m) =
        cur.nodes.filter (fun m => decide (m.id ∉ t'.flatten)) := by
      have h1 : ∀ m ∈ cur.nodes.filter (fun m => decide (m.id ∉ t'.flatten)),
          (if n'.parent = some m.id then { m with children := m.children.filter (fun c => c != t'.idOf) } else m) = m := by
        intro m hm
        rw [hpar', if_neg]
        intro he
        exact hno m (List.mem_filter.mp hm).1 (Option.some.inj he).symm
      rw [List.map_congr_left h1, List.map_id']
    simp only [List.foldl_cons]
    rw [hcall, hroot_eq, hmap_eq]
    have hihp := ihp
      { nodes := cur.nodes.filter (fun m => decide (m.id ∉ t'.flatten)),
        root_children := cur.root_children,
        next_id := cur.next_id,
        selection := cur.selection.filter (fun c => decide (c ∉ t'.flatten)) } i0
      (fun t'' ht'' => hfuelL t'' (List.mem_cons_of_mem t' ht''))
      (spansL_stable ts' i0 cur _
        (fun j hj => by
          have hjn : j ∉ t'.flatten := fun hmem => hdisj hmem hj
          show (cur.nodes.filter (fun m => decide (m.id ∉ t'.flatten))).find?
              (fun n => n.id == j) = cur.nodes.find? (fun n => n.id == j)
          exact find?_id_filter cur.nodes (fun x => decide (x ∉ t'.flatten)) j
            (decide_eq_true hjn))
        hrest)
      hnd2
      (fun d hd => hrootL d (by simp only [flattenL_cons, List.mem_append]; exact Or.inr hd))
      (by
        have hsub : ((cur.nodes.filter (fun m => decide (m.id ∉ t'.flatten))).map Node.id).Sublist
            (cur.nodes.map Node.id) :=
          List.Sublist.map Node.id (List.filter_sublist cur.nodes)
        exact List.Nodup.sublist hsub hidsL)
      (fun m hm => hno m (List.mem_filter.mp hm).1)
    rw [hihp]
    simp only [flattenL_cons]
    rw [filter_id_not_mem_append, filter_not_mem_append]

/-- Subtree removal equation: on a scene a tree spans (with distinct
member ids, no members except possibly the root in the root list, and
the root's parent outside the tree), `removeNodeF` with enough fuel
deletes exactly the tree's ids from the node map and the selection,
drops the root id from the root list, and filters it out of the
parent's child list. -/
theorem removeF_tree : ∀ (fuel : Nat) (t : NTree) (s : Scene) (rn : Node),
    t.flatten.length + 1 ≤ fuel →
    s.get_node t.idOf = some rn →
    Spans s t →
    t.flatten.Nodup →
    (∀ d ∈ t.flatten, d ≠ t.idOf → d ∉ s.root_children) →
    (∀ p, rn.parent = some p → p ∉ t.flatten) →
    (s.nodes.map Node.id).Nodup →
    Scene.removeNodeF fuel s t.idOf =
      { nodes := (s.nodes.filter (fun m => decide (m.id ∉ t.flatten))).map
          (fun m => if rn.parent = some m.id then { m with children := m.children.filter (fun c => c != t.idOf) } else m),
        root_children := s.root_children.filter (fun c => c != t.idOf),
        next_id := s.next_id,
        selection := s.selection.filter (fun c => decide (c ∉ t.flatten)) } := by
  intro fuel
  induction fuel with
  | zero =>
    intro t s rn hfuel
    exact absurd hfuel (by omega)
  | succ f ihf =>
    intro t s rn hfuel hrn hspan hnodup hroot hpar hids
    cases t with
    | mk i ks =>
      simp only [NTree.idOf] at hrn hroot hpar ⊢
      simp only [flatten_mk] at hfuel hnodup hroot hpar ⊢
      obtain ⟨⟨n0, hn0, hch⟩, hkids⟩ := hspan
      have hn0rn : n0 = rn := by
        rw [hrn] at hn0
        exact (Option.some.inj hn0).symm
      subst hn0rn
      have hino : i ∉ NTree.flattenL ks := (List.nodup_cons.mp hnodup).1
      have hndL : (NTree.flattenL ks).Nodup := (List.nodup_cons.mp hnodup).2
      have hfuelL : ∀ t' ∈ ks, t'.flatten.length + 1 ≤ f := by
        intro t' ht'
        have h1 := flatten_le_flattenL ks t' ht'
        simp only [List.length_cons] at hfuel
        omega
      cases hp : n0.parent with
      | none =>
        simp only [Scene.removeNodeF, hrn, hp, hch, List.foldl_map]
        have hfold := removeF_fold f ihf ks
          { nodes := s.nodes.filter (fun n => n.id != i),
            root_children := s.root_children.filter (fun c => c != i),
            next_id := s.next_id,
            selection := s.selection } i
          hfuelL
          (spansL_stable ks i s _
            (fun j hj => by
              have hji : j ≠ i := fun he => hino (he ▸ hj)
              show (s.nodes.filter (fun n => n.id != i)).find? (fun n => n.id == j) =
                s.nodes.find? (fun n => n.id == j)
              exact find?_id_filter s.nodes (fun x => x != i) j (by simpa using hji))
            hkids)
          hndL
          (fun d hd hmem => by
            have hdi : d ≠ i := fun he => hino (he ▸ hd)
            have hdm : d ∈ s.root_children := (List.mem_filter.mp hmem).1
            exact hroot d (List.mem_cons_of_mem i hd) hdi hdm)
          (List.Nodup.sublist (List.Sublist.map Node.id (List.filter_sublist s.nodes)) hids)
          (fun m hm => by
            have := (List.mem_filter.mp hm).2
            simpa using this)
        rw [hfold]
        simp only [Scene.mk.injEq]
        refine ⟨?_, trivial, trivial, ?_⟩
        · rw [filter_id_bne_not_mem]
          have hmapid : ∀ m ∈ s.nodes.filter (fun n => decide (n.id ∉ i :: NTree.flattenL ks)),
              (if (none : Option Nat) = some m.id then { m with children := m.children.filter (fun c => c != i) } else m) = m := by
            intro m _
            rw [if_neg]
            intro he
            exact Option.noConfusion he
          rw [List.map_congr_left hmapid, List.map_id']
        · rw [filter_not_mem_bne]
      | some p =>
        simp only [Scene.removeNodeF, hrn, hp, hch, List.foldl_map, Scene.updateNode]
        have hpi : p ≠ i := by
          have := hpar p hp
          intro he
          exact this (by rw [he]; exact List.mem_cons_self i _)
        have hpL : p ∉ NTree.flattenL ks := fun hmem =>
          hpar p hp (List.mem_cons_of_mem i hmem)
        have hgid : ∀ n : Node,
            ((fun q => if (q.id == p) = true then { q with children := q.children.filter (fun c => c != i) } else q) n).id = n.id := by
          intro n
          by_cases hq : (n.id == p) = true <;> simp [hq]
        have hfold := removeF_fold f ihf ks
          { nodes := (s.nodes.filter (fun n => n.id != i)).map
              (fun q => if (q.id == p) = true then { q with children := q.children.filter (fun c => c != i) } else q),
            root_children := s.root_children.filter (fun c => c != i),
            next_id := s.next_id,
            selection := s.selection } i
          hfuelL
          (spansL_stable ks i s _
            (fun j hj => by
              have hji : j ≠ i := fun he => hino (he ▸ hj)
              have hjp : j ≠ p := fun he => hpL (he ▸ hj)
              show ((s.nodes.filter (fun n => n.id != i)).map
                  (fun q => if (q.id == p) = true then { q with children := q.children.filter (fun c => c != i) } else q)).find?
                  (fun n => n.id == j) = s.nodes.find? (fun n => n.id == j)
              rw [find?_map_pred _ _ hgid j]
              rw [find?_id_filter s.nodes (fun x => x != i) j (by simpa using hji)]
              cases hg : s.nodes.find? (fun n => n.id == j) with
              | none => rfl
              | some nj =>
                have hnjid : nj.id = j := by simpa using List.find?_some hg
                simp only [Option.map_some']
                rw [if_neg (by simp [hnjid, hjp])])
            hkids)
          hndL
          (fun d hd hmem => by
            have hdi : d ≠ i := fun he => hino (he ▸ hd)
            have hdm : d ∈ s.root_children := (List.mem_filter.mp hmem).1
            exact hroot d (List.mem_cons_of_mem i hd) hdi hdm)
          (by
            have hmm : ((s.nodes.filter (fun n => n.id != i)).map
                (fun q => if (q.id == p) = true then { q with children := q.children.filter (fun c => c != i) } else q)).map Node.id =
                (s.nodes.filter (fun n => n.id != i)).map Node.id := by
              rw [List.map_map]
              exact List.map_congr_left (fun n _ => hgid n)
            rw [hmm]
            exact List.Nodup.sublist (List.Sublist.map Node.id (List.filter_sublist s.nodes)) hids)
          (fun m hm => by
            obtain ⟨m0, hm0, rfl⟩ := List.mem_map.mp hm
            rw [hgid m0]
            have := (List.mem_filter.mp hm0).2
            simpa using this)
        rw [hfold]
        simp only [Scene.mk.injEq]
        refine ⟨?_, trivial, trivial, ?_⟩
        · rw [filter_map_swap (s.nodes.filter (fun n => n.id != i)) _ hgid
              (fun x => decide (x ∉ NTree.flattenL ks)),
            filter_id_bne_not_mem]
          apply List.map_congr_left
          intro m _
          by_cases hmp : m.id = p
          · rw [if_pos (by simp [hmp]), if_pos (by rw [hmp])]
          · rw [if_neg (by simp [hmp]), if_neg (by intro he; exact hmp (Option.some.inj he).symm)]
        · rw [filter_not_mem_bne]

/-- C9: for a stored node id on an invariant-respecting scene,
`remove_node` removes exactly the node and all of its descendants from
the node map, drops the id from the root list (keeping the remaining
root order), keeps the id counter and every other node unchanged apart
from filtering the id out of its parent's child list, and purges
exactly the removed ids from the selection. -/
theorem c9_remove_subtree (s : Scene) (id : Nat) (n : Node)
    (hinv : SceneInv s) (hn : s.get_node id = some n) :
    id ∈ s.descendants id ∧
    s.remove_node id =
      { nodes := (s.nodes.filter (fun m => decide (m.id ∉ s.descendants id))).map
          (fun m => if n.parent = some m.id then { m with children := m.children.filter (fun c => c != id) } else m),
        root_children := s.root_children.filter (fun c => c != id),
        next_id := s.next_id,
        selection := s.selection.filter (fun c => decide (c ∉ s.descendants id)) } := by
  obtain ⟨hids, hlt, hroots, hcr, hone, hpc, rank, hrkb, hrk⟩ := hinv
  have hnmem : n ∈ s.nodes := (get_node_some_mem hn).1
  have hnid : n.id = id := (get_node_some_mem hn).2
  have hrid : rank id < s.nodes.length := by
    have h0 := hrkb n hnmem
    rw [hnid] at h0
    exact h0
  obtain ⟨hspan, hmemf, hreach, hnodup⟩ :=
    buildTree_all hids hcr hone hpc rank hrk (rank id + 1) id n (Nat.lt_succ_self _) hn
      (s.nodes.length + 1) (by omega)
  have hdesc : s.descendants id = (buildTreeF (s.nodes.length + 1) s id).flatten := rfl
  have hidOf : (buildTreeF (s.nodes.length + 1) s id).idOf = id := buildTreeF_idOf _ _ _
  have hsubset : ∀ d ∈ (buildTreeF (s.nodes.length + 1) s id).flatten,
      d ∈ s.nodes.map Node.id := by
    intro d hd
    obtain ⟨nd, hnd⟩ := (hmemf d hd).1
    rw [← (get_node_some_mem hnd).2]
    exact List.mem_map_of_mem Node.id (get_node_some_mem hnd).1
  have hlen : (buildTreeF (s.nodes.length + 1) s id).flatten.length ≤ s.nodes.length := by
    have hsp := List.Nodup.subperm hnodup hsubset
    have h0 := List.Subperm.length_le hsp
    simpa using h0
  have hrootH : ∀ d ∈ (buildTreeF (s.nodes.length + 1) s id).flatten,
      d ≠ (buildTreeF (s.nodes.length + 1) s id).idOf → d ∉ s.root_children := by
    intro d hd hne hmem
    rw [hidOf] at hne
    rcases (hmemf d hd).2 with rfl | hrest
    · exact hne rfl
    · obtain ⟨_, q, hq, hdq⟩ := hrest
      obtain ⟨nd, hnd⟩ := (hmemf d hd).1
      have h1 := hone nd (get_node_some_mem hnd).1
      rw [(get_node_some_mem hnd).2] at h1
      have hq1 : q.children.count d ≠ 0 := fun h0 => (List.count_eq_zero.mp h0) hdq
      have hle : q.children.count d ≤ childCount s d :=
        show q.children.count d ≤ (s.nodes.map (fun m => m.children.count d)).sum from
          one_entry_le hq (fun m => m.children.count d)
      have hr0 : s.root_children.count d ≠ 0 := fun h0 => (List.count_eq_zero.mp h0) hmem
      omega
  have hparH : ∀ p, n.parent = some p →
      p ∉ (buildTreeF (s.nodes.length + 1) s id).flatten := by
    intro p hp hmem
    have h6 := hpc n hnmem
    rw [hp] at h6
    obtain ⟨q, hq, hqid, hin⟩ := h6
    have hstep : rank id < rank p := by
      have h0 := hrk q hq n.id hin
      rw [hnid, hqid] at h0
      exact h0
    rcases reaches_rank hpc rank hrk (hreach p hmem) with heq | hlt2
    · rw [heq] at hstep; exact lt_irrefl _ hstep
    · omega
  refine ⟨?_, ?_⟩
  · rw [hdesc, ← hidOf]
    exact idOf_mem_flatten _
  · have hmain := removeF_tree (s.nodes.length + 1) (buildTreeF (s.nodes.length + 1) s id)
      s n (by omega) (by rw [hidOf]; exact hn) hspan hnodup hrootH hparH hids
    rw [hidOf] at hmain
    show Scene.removeNodeF (s.nodes.length + 1) s id = _
    rw [hdesc]
    exact hmain

/-- The two-node scene satisfies the scene-graph invariant. -/
theorem pairScene_inv : SceneInv pairScene := by
  refine ⟨by decide, by decide, by decide, by decide, by decide, ?_,
    ⟨fun j => if j = 1 then 1 else 0, by decide, by decide⟩⟩
  intro m hm
  rcases List.mem_cons.mp hm with rfl | hm2
  · show pairRoot.id ∈ pairScene.root_children
    decide
  · rcases List.mem_cons.mp hm2 with rfl | hm3
    · show ∃ q ∈ pairScene.nodes, q.id = 1 ∧ pairChild.id ∈ q.children
      decide
    · exact absurd hm3 (List.not_mem_nil m)

/-- C9 (witness): removing root 1 of the two-node scene removes both
nodes, drops 1 from the root list and purges both ids from the
selection. -/
theorem c9_witness :
    SceneInv pairScene ∧ pairScene.get_node 1 = some pairRoot ∧
    (1 ∈ pairScene.descendants 1 ∧
      pairScene.remove_node 1 =
        { nodes := (pairScene.nodes.filter (fun m => decide (m.id ∉ pairScene.descendants 1))).map
            (fun m => if pairRoot.parent = some m.id then { m with children := m.children.filter (fun c => c != 1) } else m),
          root_children := pairScene.root_children.filter (fun c => c != 1),
          next_id := pairScene.next_id,
          selection := pairScene.selection.filter (fun c => decide (c ∉ pairScene.descendants 1)) }) :=
  ⟨pairScene_inv, rfl, c9_remove_subtree pairScene 1 pairRoot pairScene_inv rfl⟩

end OS
